import Mathlib

/-!
Verification development for the Dailymotion extractor module
(`youtube_dl/extractor/dailymotion.py`).

The module is embedded shallowly:

* HTML pages and format URLs are plain strings; the regular expressions the
  extractor applies to them (`re.search` / `re.findall`) are translated into
  executable character-list matchers with Python semantics (leftmost match,
  lazy and greedy quantifiers, `.` not matching a newline unless `(?s)`).
* `json.loads` output is modelled by the inductive type `JVal` (numeric
  literals are modelled as integers, which covers every field this extractor
  reads).  A parsed JSON object is its field list, so the key order of the
  incoming descriptor is part of the model.
* Network fetches performed through the framework are modelled by an
  environment (`VideoEnv`, or a `Nat → String` page oracle for the
  paginator) plus an explicit effect trace (`Eff`) recording each download,
  `to_screen` call and warning in program order.
* Python exceptions (`ExtractorError`, `KeyError`, `TypeError`,
  `json.JSONDecodeError`) become the `ExErr` error type threaded through
  `Except`.
-/

/-- JSON values as produced by `json.loads`.  Objects keep their textual
field order; duplicate keys resolve to the last occurrence, as in Python.
Numeric literals are modelled as integers (every numeric field this module
touches is an integer). -/
inductive JVal where
  | null : JVal
  | bool (b : Bool) : JVal
  | num (n : Int) : JVal
  | str (s : String) : JVal
  | arr (items : List JVal) : JVal
  | obj (fields : List (String × JVal)) : JVal

/-- Errors raised during extraction: `ExtractorError(msg, expected)` from
the module itself or its framework, and the Python runtime errors that
unguarded dictionary / attribute access can raise. -/
inductive ExErr where
  | extractorError (msg : String) (expected : Bool) : ExErr
  | keyError (key : String) : ExErr
  | typeError : ExErr
  | jsonError : ExErr
deriving DecidableEq

/-! ## Character-level matchers for the regular expressions of the module -/

/-- `\d` on the ASCII range (the URLs and dates matched here are ASCII). -/
def isDigitChar (c : Char) : Bool := decide ('0' ≤ c) && decide (c ≤ '9')

/-- `\w` (letters, digits, underscore). -/
def isWordChar (c : Char) : Bool := c.isAlphanum || c = '_'

/-- `\s` (Python whitespace class, ASCII range). -/
def isSpaceChar (c : Char) : Bool :=
  c = ' ' || c = '\t' || c = '\n' || c = '\r' || c = '\x0b' || c = '\x0c'

/-- Match a literal at the head of the input, returning the rest. -/
def matchLit : List Char → List Char → Option (List Char)
  | [], s => some s
  | _ :: _, [] => none
  | l :: ls, c :: cs => if c = l then matchLit ls cs else none

/-- First success of `f` over a list of candidates (backtracking order). -/
def firstSome {α β : Type} (f : α → Option β) : List α → Option β
  | [] => none
  | a :: as =>
    match f a with
    | some b => some b
    | none => firstSome f as

/-- All ways to read a lazy gap `X*?` (each gap character satisfying
`allowed`) followed by a sub-matcher `m`, listed with the shortest gap
first — the candidate order a lazy quantifier explores. -/
def gapUntilM (allowed : Char → Bool) (m : List Char → Option (List Char)) :
    List Char → List (List Char)
  | [] => (m []).toList
  | c :: cs => (m (c :: cs)).toList ++ (if allowed c then gapUntilM allowed m cs else [])

/-- `re.search`: try the pattern matcher at every start position, leftmost
position first. -/
def searchO {α : Type} (f : List Char → Option α) : List Char → Option α
  | [] => f []
  | c :: cs =>
    match f (c :: cs) with
    | some x => some x
    | none => searchO f cs

/-- Value of a digit-group capture (`int_or_none` applied to a `\d+` group
always yields the denoted number). -/
def digitsToNat (l : List Char) : Nat :=
  l.foldl (fun n c => n * 10 + (c.toNat - ('0').toNat)) 0

/-- Exactly `n` characters satisfying `p` (the `{n}` quantifier). -/
def takeExact : Nat → (Char → Bool) → List Char → Option (List Char × List Char)
  | 0, _, s => some ([], s)
  | _ + 1, _, [] => none
  | n + 1, p, c :: cs =>
    if p c then (takeExact n p cs).map (fun x => (c :: x.1, x.2)) else none

/-! ### `r'H264-(\d+)x(\d+)'` over a format URL -/

def h264Lit : List Char := ("H264-").data

/-- One match attempt of `H264-(\d+)x(\d+)` at the head of the input,
returning the two captured numbers.  The greedy `\d+` groups take the
maximal digit runs (no shorter run can be followed by `x`, so greedy
backtracking never revises them). -/
def h264At (s : List Char) : Option (Nat × Nat) :=
  (matchLit h264Lit s).bind fun r =>
    let ds := r.takeWhile isDigitChar
    if ds.isEmpty then none
    else
      match r.dropWhile isDigitChar with
      | 'x' :: r2 =>
        let hs := r2.takeWhile isDigitChar
        if hs.isEmpty then none else some (digitsToNat ds, digitsToNat hs)
      | _ => none

/-- `re.search(r'H264-(\d+)x(\d+)', video_url)` with the two groups run
through `int_or_none` (line 130-132 of the source). -/
def searchH264 (u : String) : Option (Nat × Nat) := searchO h264At u.data

/-! ### The Vevo delegation pattern (lines 100-102)
`r'<link rel="video_src" href="[^"]*?vevo.com[^"]*?video=(?P<id>[\w]*)'`
(the unescaped `.` in `vevo.com` matches any character but a newline). -/

def vevoLinkLit : List Char := ("<link rel=\"video_src\" href=\"").data

/-- `vevo.com` with `.` as the any-character-but-newline wildcard. -/
def matchVevoDotCom (s : List Char) : Option (List Char) :=
  match matchLit (("vevo").data) s with
  | none => none
  | some [] => none
  | some (c :: cs) => if c = '\n' then none else matchLit (("com").data) cs

/-- One attempt of the Vevo pattern at the head of the input; the group
`(?P<id>[\w]*)` is greedy, the two `[^"]*?` gaps are lazy with
backtracking across candidate positions. -/
def vevoAt (s : List Char) : Option String :=
  (matchLit vevoLinkLit s).bind fun r1 =>
    firstSome
      (fun r2 =>
        firstSome (fun r3 => some (String.mk (r3.takeWhile isWordChar)))
          (gapUntilM (fun c => c ≠ '"') (matchLit (("video=").data)) r2))
      (gapUntilM (fun c => c ≠ '"') matchVevoDotCom r1)

/-- `re.search` of the Vevo player-link pattern over the video page. -/
def searchVevo (webpage : String) : Option String := searchO vevoAt webpage.data

/-! ### Release date (line 111)
`r'<meta property="video:release_date" content="([0-9]{4})-([0-9]{2})-([0-9]{2}).+?"/>'` -/

def relDateLit : List Char :=
  ("<meta property=\"video:release_date\" content=\"").data

/-- The `.+?"/>` tail: at least one non-newline character, lazily, then the
literal `"/>`. -/
def relDateTail (r : List Char) : Bool :=
  match r with
  | [] => false
  | c :: cs =>
    c ≠ '\n' && !(gapUntilM (fun d => d ≠ '\n') (matchLit (("\"/>").data)) cs).isEmpty

/-- One attempt of the release-date pattern, returning the three captured
digit groups. -/
def relDateAt (s : List Char) : Option (String × String × String) :=
  (matchLit relDateLit s).bind fun r0 =>
    (takeExact 4 isDigitChar r0).bind fun y =>
      (matchLit (("-").data) y.2).bind fun r1 =>
        (takeExact 2 isDigitChar r1).bind fun m =>
          (matchLit (("-").data) m.2).bind fun r2 =>
            (takeExact 2 isDigitChar r2).bind fun d =>
              if relDateTail d.2 then
                some (String.mk y.1, String.mk m.1, String.mk d.1)
              else none

/-- `re.search` of the release-date meta-tag pattern over the video page. -/
def searchReleaseDate (webpage : String) : Option (String × String × String) :=
  searchO relDateAt webpage.data

/-! ## Python dictionary / value operations -/

/-- Lookup in a parsed JSON object (Python `dict` built by `json.loads`):
with duplicate textual keys the last occurrence wins. -/
def jlookup (fields : List (String × JVal)) (key : String) : Option JVal :=
  fields.foldl (fun acc kv => if kv.1 = key then some kv.2 else acc) none

/-- Python `info.get(key)` followed by an `is not None` test: a JSON `null`
parses to Python `None`, so a present-but-null field behaves like an absent
one. -/
def pyGet (fields : List (String × JVal)) (key : String) : Option JVal :=
  match jlookup fields key with
  | some JVal.null => none
  | v => v

/-- Python `value[key]` on an arbitrary value: `KeyError` on a dictionary
missing the key, `TypeError` when the value is not a dictionary. -/
def pyIndexVal : JVal → String → Except ExErr JVal
  | JVal.obj fields, key =>
    match jlookup fields key with
    | some v => Except.ok v
    | none => Except.error (ExErr.keyError key)
  | _, _ => Except.error ExErr.typeError

/-- Python `info[key]` on a parsed JSON object (`KeyError` if absent). -/
def pyIndexObj (fields : List (String × JVal)) (key : String) : Except ExErr JVal :=
  match jlookup fields key with
  | some v => Except.ok v
  | none => Except.error (ExErr.keyError key)

mutual
/-- Python `str()` / `repr()` of a parsed JSON value, as used by `'%s' %`
string interpolation (string escaping inside `repr` is not modelled; the
module only ever interpolates string-valued fields). -/
def pyRender : Bool → JVal → String
  | _, JVal.null => "None"
  | _, JVal.bool b => if b then "True" else "False"
  | _, JVal.num n => toString n
  | asRepr, JVal.str s => if asRepr then "\x27" ++ s ++ "\x27" else s
  | _, JVal.arr items => "[" ++ pyRenderList items ++ "]"
  | _, JVal.obj fields => "\x7b" ++ pyRenderFields fields ++ "\x7d"

def pyRenderList : List JVal → String
  | [] => ""
  | [v] => pyRender true v
  | v :: vs => pyRender true v ++ ", " ++ pyRenderList vs

def pyRenderFields : List (String × JVal) → String
  | [] => ""
  | [kv] => "\x27" ++ kv.1 ++ "\x27: " ++ pyRender true kv.2
  | kv :: kvs => "\x27" ++ kv.1 ++ "\x27: " ++ pyRender true kv.2 ++ ", " ++ pyRenderFields kvs
end

/-- Python `'%s' % v`. -/
def pyStr (v : JVal) : String := pyRender false v

/-- Equality of the hashable (scalar) JSON values; only such values ever
reach a dictionary-key position (others raise `TypeError` first). -/
def jvalBeq : JVal → JVal → Bool
  | JVal.null, JVal.null => true
  | JVal.bool a, JVal.bool b => a = b
  | JVal.num a, JVal.num b => a = b
  | JVal.str a, JVal.str b => a = b
  | _, _ => false

/-- Is the value usable as a Python dictionary key (hashable)? -/
def jvalHashable : JVal → Bool
  | JVal.arr _ => false
  | JVal.obj _ => false
  | _ => true

/-- Python dictionary insertion: replace in place if the key exists,
append otherwise. -/
def dictInsert {α : Type} : List (JVal × α) → JVal → α → List (JVal × α)
  | [], k, v => [(k, v)]
  | (k0, v0) :: rest, k, v =>
    if jvalBeq k0 k then (k0, v) :: rest else (k0, v0) :: dictInsert rest k v

/-! ## The extractor's data model -/

/-- An outbound request (`DailymotionBaseInfoExtractor._build_request`
attaches the family-filter cookie; the subtitle listing is fetched from a
bare URL with no such cookie). -/
structure Request where
  url : String
  cookie : Option String
deriving DecidableEq

/-- `_build_request` (lines 24-29): wrap the URL, disabling the family
filter via a fixed `Cookie` header. -/
def build_request (url : String) : Request :=
  { url := url, cookie := some ("family_filter=off; ff=off") }

/-- Observable side effects of one extraction, in program order.  A
`download` records each `_download_webpage` call with the request and the
`note` argument (`note=False` and the default are both recorded as
`none`). -/
inductive Eff where
  | download (req : Request) (note : Option String) : Eff
  | reportExtraction (id : String) : Eff
  | toScreen (msg : String) : Eff
  | warning (msg : String) : Eff
deriving DecidableEq

/-- One entry of a playlist result and also the delegation signal: the
value built by `InfoExtractor.url_result`. -/
structure UrlEntry where
  url : String
  ie : String
deriving DecidableEq

/-- Modelled from the spec: `InfoExtractor.url_result` lives in the
framework (`common.py`, not among the sources); per the spec it wraps a
URL plus the extractor to re-dispatch to into a delegation signal. -/
def url_result (url : String) (ie : String) : UrlEntry :=
  { url := url, ie := ie }

/-- One stream variant of the result (`formats.append({...})`,
lines 135-141). -/
structure Format where
  url : String
  ext : String
  format_id : String
  width : Option Nat
  height : Option Nat
deriving DecidableEq

/-- One subtitle file reference (`{'url': l['url'], 'ext': 'srt'}`). -/
structure SubEntry where
  url : JVal
  ext : String

/-- The info dictionary returned by `DailymotionIE._real_extract`
(lines 158-169). -/
structure VideoMetadata where
  id : String
  formats : List Format
  uploader : JVal
  upload_date : Option String
  title : String
  subtitles : List (JVal × List SubEntry)
  thumbnail : JVal
  age_limit : Nat
  view_count : Option Int
  duration : JVal

/-- A video extraction either delegates (`url_result`) or produces the
metadata dictionary. -/
inductive ExtractResult where
  | urlResult (entry : UrlEntry) : ExtractResult
  | metadata (md : VideoMetadata) : ExtractResult

/-- `DailymotionIE._FORMATS` (lines 38-44), in source order. -/
def FORMATS : List (String × String) :=
  [("stream_h264_ld_url", "ld"),
   ("stream_h264_url", "standard"),
   ("stream_h264_hq_url", "hq"),
   ("stream_h264_hd_url", "hd"),
   ("stream_h264_hd1080_url", "hd180")]

/-- Modelled from the spec: `InfoExtractor._rta_search` is framework code
(`common.py`, not among the sources); per the spec it maps a
restricted-content marker in the markup to age limit 18, else 0. -/
def rta_search (webpage : String) : Nat :=
  if (searchO (matchLit (("RTA-5042-1996-1400-1577-RTA").data)) webpage.data).isSome
  then 18 else 0

/-- Modelled from the spec: `utils.str_to_int` (not among the sources) —
read a view count "tolerant of thousands separators". -/
def str_to_int : Option String → Option Int
  | none => none
  | some s =>
    let ds := s.data.filter (fun c => c ≠ ',' && c ≠ '.')
    if !ds.isEmpty && ds.all isDigitChar then some (Int.ofNat (digitsToNat ds)) else none

/-! ## The environment: what the network and the framework return -/

/-- Everything a single run of `DailymotionIE._real_extract` receives from
outside, per fetch.  `embedInfo` stands for the embed page combined with
the framework steps applied to it verbatim (`_search_regex(r'var info =
({.*?}),$', ...)` then `json.loads`): `none` when the marker variable is
absent (`RegexNotFoundError`), `some none` when the captured text is not
valid JSON, `some (some fields)` for the parsed object.  `subFetch` is the
subtitle listing fetch: `Except.error msg` models `_download_webpage`
raising a transport `ExtractorError` rendered as `msg`, `Except.ok none` a
body `json.loads` rejects, `Except.ok (some v)` the parsed body.
`ogTitle`, `spanTitle` and `viewCount` are the (framework-executed) regex
captures for `_og_search_title`, the `video_title` span fallback and the
view counter. -/
structure VideoEnv where
  webpage : String
  embedInfo : Option (Option (List (String × JVal)))
  subFetch : Except String (Option JVal)
  ogTitle : Option String
  spanTitle : Option String
  viewCount : Option String

/-! ## `DailymotionIE._get_subtitles` (lines 171-184) -/

/-- Build `dict((l['language'], [{'url': l['url'], 'ext': 'srt'}]) for l in
info['list'])`, left to right, with Python dictionary-key semantics. -/
def buildSubDict (items : List JVal) : Except ExErr (List (JVal × List SubEntry)) :=
  items.foldlM
    (fun d l =>
      (pyIndexVal l ("language")).bind fun lang =>
        (pyIndexVal l ("url")).bind fun u =>
          if jvalHashable lang then
            Except.ok (dictInsert d lang [{ url := u, ext := "srt" }])
          else Except.error ExErr.typeError)
    []

/-- Python `v > 0` for the `total` field (booleans compare as integers;
any other non-number raises `TypeError` on Python 3). -/
def pyGtZero : JVal → Except ExErr Bool
  | JVal.num n => Except.ok (decide (0 < n))
  | JVal.bool b => Except.ok b
  | _ => Except.error ExErr.typeError

/-- Python `for l in v` preceding `dict(...)`: a list iterates its items;
an empty string or empty dictionary yields no items (so the comprehension
produces an empty dictionary); every other value either is not iterable or
iterates scalars that the body then fails to index. -/
def subListItems : JVal → Except ExErr (List JVal)
  | JVal.arr items => Except.ok items
  | JVal.str s => if s = "" then Except.ok [] else Except.error ExErr.typeError
  | JVal.obj fields => if fields.isEmpty then Except.ok [] else Except.error ExErr.typeError
  | _ => Except.error ExErr.typeError

/-- The subtitle-listing fetch (line 173-175): a bare URL, no family-filter
cookie, `note=False`. -/
def subListDl (video_id : String) : Eff :=
  Eff.download
    { url := "https://api.dailymotion.com/video/" ++ video_id ++
        "/subtitles?fields=id,language,url",
      cookie := none } none

/-- `DailymotionIE._get_subtitles`, returning its value (or the uncaught
exception) together with its effect trace. -/
def get_subtitles (video_id : String) (env : VideoEnv) :
    Except ExErr (List (JVal × List SubEntry)) × List Eff :=
  match env.subFetch with
  | Except.error err =>
    (Except.ok [],
     [subListDl video_id, Eff.warning ("unable to download video subtitles: " ++ err)])
  | Except.ok none => (Except.error ExErr.jsonError, [subListDl video_id])
  | Except.ok (some info) =>
    match (pyIndexVal info ("total")).bind pyGtZero with
    | Except.error e => (Except.error e, [subListDl video_id])
    | Except.ok true =>
      match (pyIndexVal info ("list")).bind subListItems with
      | Except.error e => (Except.error e, [subListDl video_id])
      | Except.ok items =>
        match buildSubDict items with
        | Except.error e => (Except.error e, [subListDl video_id])
        | Except.ok d => (Except.ok d, [subListDl video_id])
    | Except.ok false =>
      (Except.ok [],
       [subListDl video_id, Eff.warning ("video doesn\x27t have subtitles")])

/-! ## `DailymotionIE._real_extract` (lines 88-169) -/

/-- The format-collection loop (lines 126-141): walk `_FORMATS` in order,
keep each tier whose URL field is present (a JSON `null` parses to `None`
and is skipped like an absent key), inferring width and height from the
`H264-<w>x<h>` URL token.  A present non-string value would reach
`re.search` and raise `TypeError`. -/
def mkFormat (video_url : String) (format_id : String) : Format :=
  match searchH264 video_url with
  | some wh =>
    { url := video_url, ext := "mp4", format_id := format_id
      width := some wh.1, height := some wh.2 }
  | none =>
    { url := video_url, ext := "mp4", format_id := format_id
      width := none, height := none }

/-- The body of the format loop, walking the `_FORMATS` table with the
`formats` accumulator; a present non-string URL value aborts the loop the
way the Python `re.search` call would. -/
def formatsLoop (info : List (String × JVal)) :
    List (String × String) → List Format → Except ExErr (List Format)
  | [], acc => Except.ok acc
  | kf :: rest, acc =>
    match pyGet info kf.1 with
    | none => formatsLoop info rest acc
    | some (JVal.str u) => formatsLoop info rest (acc ++ [mkFormat u kf.2])
    | some _ => Except.error ExErr.typeError

def buildFormats (info : List (String × JVal)) : Except ExErr (List Format) :=
  formatsLoop info FORMATS []

/-- Title resolution (lines 152-156): `_og_search_title` with
`default=None`, falling back to the fatal `video_title` span search. -/
def resolveTitle (env : VideoEnv) : Except ExErr String :=
  match env.ogTitle with
  | some t => Except.ok t
  | none =>
    match env.spanTitle with
    | some t => Except.ok t
    | none => Except.error (ExErr.extractorError ("Unable to extract title") false)

/-- Effects accumulated by the time the embed page has been fetched: the
video-page download, `report_extraction`, and the embed-page download
(lines 93-118). -/
def embedStageEffs (video_id : String) : List Eff :=
  [Eff.download (build_request ("https://www.dailymotion.com/video/" ++ video_id)) none,
   Eff.reportExtraction video_id,
   Eff.download (build_request ("https://www.dailymotion.com/embed/video/" ++ video_id))
     (some ("Downloading embed page"))]

/-- `DailymotionIE._real_extract`, step for step, returning the result (or
the raised error) and the effect trace.  `extract_subtitles` is modelled
from the spec as delegating to `_get_subtitles` (SubtitleResolver). -/
def real_extract (video_id : String) (env : VideoEnv) :
    Except ExErr ExtractResult × List Eff :=
  match searchVevo env.webpage with
  | some vevo_id =>
    (Except.ok (ExtractResult.urlResult (url_result ("vevo:" ++ vevo_id) ("Vevo"))),
     [Eff.download (build_request ("https://www.dailymotion.com/video/" ++ video_id)) none,
      Eff.reportExtraction video_id,
      Eff.toScreen ("Vevo video detected: " ++ vevo_id)])
  | none =>
    match env.embedInfo with
    | none =>
      (Except.error (ExErr.extractorError ("Unable to extract video info") false),
       embedStageEffs video_id)
    | some none => (Except.error ExErr.jsonError, embedStageEffs video_id)
    | some (some info) =>
      match pyGet info ("error") with
      | some errval =>
        match pyIndexVal errval ("title") with
        | Except.error e => (Except.error e, embedStageEffs video_id)
        | Except.ok t =>
          (Except.error
            (ExErr.extractorError
              ("Couldn\x27t get video, Dailymotion says: " ++ pyStr t) true),
           embedStageEffs video_id)
      | none =>
        match buildFormats info with
        | Except.error e => (Except.error e, embedStageEffs video_id)
        | Except.ok formats =>
          if formats.isEmpty then
            (Except.error (ExErr.extractorError ("Unable to extract video URL") false),
             embedStageEffs video_id)
          else
            match (get_subtitles video_id env).1 with
            | Except.error e =>
              (Except.error e, embedStageEffs video_id ++ (get_subtitles video_id env).2)
            | Except.ok video_subtitles =>
              match resolveTitle env with
              | Except.error e =>
                (Except.error e, embedStageEffs video_id ++ (get_subtitles video_id env).2)
              | Except.ok title =>
                match pyIndexObj info ("owner.screenname") with
                | Except.error e =>
                  (Except.error e, embedStageEffs video_id ++ (get_subtitles video_id env).2)
                | Except.ok uploader =>
                  match pyIndexObj info ("thumbnail_url") with
                  | Except.error e =>
                    (Except.error e, embedStageEffs video_id ++ (get_subtitles video_id env).2)
                  | Except.ok thumbnail =>
                    match pyIndexObj info ("duration") with
                    | Except.error e =>
                      (Except.error e, embedStageEffs video_id ++ (get_subtitles video_id env).2)
                    | Except.ok duration =>
                      (Except.ok (ExtractResult.metadata
                        { id := video_id, formats := formats, uploader := uploader,
                          upload_date :=
                            (searchReleaseDate env.webpage).map
                              (fun g => g.1 ++ g.2.1 ++ g.2.2),
                          title := title,
                          subtitles := video_subtitles, thumbnail := thumbnail,
                          age_limit := rta_search env.webpage,
                          view_count := str_to_int env.viewCount,
                          duration := duration }),
                       embedStageEffs video_id ++ (get_subtitles video_id env).2)

/-! ## `DailymotionPlaylistIE._extract_entries` (lines 201-213) -/

/-- Modelled from the spec: `utils.orderedSet` (not among the sources) —
"remove all duplicates and return the same order": fold left, appending
each element not already accumulated. -/
def orderedSet (l : List String) : List String :=
  l.foldl (fun res el => if el ∈ res then res else res ++ [el]) []

/-- Specification-side rendition of first-seen-order de-duplication: keep
the head, drop its later occurrences, recurse. -/
def keepFirsts : List String → List String
  | [] => []
  | x :: xs => x :: keepFirsts (xs.filter (fun y => y ≠ x))
termination_by l => l.length
decreasing_by
  simp only [List.length_cons]
  exact Nat.lt_succ_of_le (List.length_filter_le _ _)

def xidLit : List Char := ("data-xid=\"").data

/-- One attempt of `data-xid="(.+?)"`: the lazy group takes the shortest
non-empty run of non-newline characters closed by a quote.  Returns the
captured group and the rest of the input after the match. -/
def xidTail : List Char → Option (List Char × List Char)
  | [] => none
  | c :: cs =>
    if c = '\n' then none
    else
      match cs with
      | [] => none
      | d :: ds =>
        if d = '"' then some ([c], ds)
        else (xidTail cs).map (fun p => (c :: p.1, p.2))

def xidAt (s : List Char) : Option (List Char × List Char) :=
  (matchLit xidLit s).bind xidTail

/-- `re.findall(r'data-xid="(.+?)"', webpage)`: repeatedly take the
leftmost match and continue after it.  The fuel argument (instantiated
with the input length) bounds the scan; every step consumes at least one
character, so it never runs out. -/
def findallXidAux : Nat → List Char → List String
  | 0, _ => []
  | _ + 1, [] => []
  | fuel + 1, c :: cs =>
    match xidAt (c :: cs) with
    | some gr => String.mk gr.1 :: findallXidAux fuel gr.2
    | none => findallXidAux fuel cs

def findall_xid (webpage : String) : List String :=
  findallXidAux (webpage.data.length + 1) webpage.data

/-! ### `_MORE_PAGES_INDICATOR` (line 190)
`r'(?s)<div class="pages[^"]*">.*?<a\s+class="[^"]*?icon-arrow_right[^"]*?"'` -/

def morePagesDivLit : List Char := ("<div class=\"pages").data

/-- One attempt of the indicator pattern at the head of the input.  The
greedy `[^"]*` and `\s+` runs are maximal (no shorter run can be followed
by their successor literal); `(?s)` makes the lazy `.*?` gap cross
newlines; the trailing `[^"]*?"` succeeds exactly when a quote follows. -/
def morePagesAt (s : List Char) : Bool :=
  match matchLit morePagesDivLit s with
  | none => false
  | some r =>
    match matchLit (("\">").data) (r.dropWhile (fun c => c ≠ '"')) with
    | none => false
    | some r3 =>
      (firstSome
        (fun r4 =>
          match r4 with
          | [] => none
          | c :: _ =>
            if isSpaceChar c then
              (matchLit (("class=\"").data) (r4.dropWhile isSpaceChar)).bind fun r6 =>
                if (gapUntilM (fun ch => ch ≠ '"')
                      (matchLit (("icon-arrow_right").data)) r6).any
                    (fun r7 => r7.any (fun ch => ch = '"'))
                then some ([] : List Char) else none
            else none)
        (gapUntilM (fun _ => true) (matchLit (("<a").data)) r3)).isSome

/-- `re.search(self._MORE_PAGES_INDICATOR, webpage) is not None`. -/
def searchMorePages (webpage : String) : Bool :=
  (searchO (fun s => if morePagesAt s then some ([] : List Char) else none) webpage.data).isSome

/-- The pagination loop of `_extract_entries`: accumulate the
`data-xid` captures of each page, stop after the first page without the
more-pages indicator, else move to the next page number.  `itertools.count`
has no bound, so the loop is given explicit fuel; `none` means the fuel
ran out with the loop still going. -/
def extract_entries_loop (pages : Nat → String) :
    Nat → Nat → List String → Option (List String)
  | 0, _, _ => none
  | fuel + 1, pagenum, acc =>
    if searchMorePages (pages pagenum) then
      extract_entries_loop pages fuel (pagenum + 1) (acc ++ findall_xid (pages pagenum))
    else some (acc ++ findall_xid (pages pagenum))

/-- Entry built for each accumulated id (line 212). -/
def mkVideoEntry (video_id : String) : UrlEntry :=
  url_result ("http://www.dailymotion.com/video/" ++ video_id) ("Dailymotion")

/-- `DailymotionPlaylistIE._extract_entries`: run the pagination loop from
page 1, then de-duplicate with `orderedSet` and wrap each id in a
`url_result`. -/
def extract_entries (pages : Nat → String) (fuel : Nat) : Option (List UrlEntry) :=
  (extract_entries_loop pages fuel 1 []).map
    (fun ids => (orderedSet ids).map mkVideoEntry)

/-- The `data-xid` captures of pages `start`, `start+1`, …, `start+n-1`. -/
def segIds (pages : Nat → String) (start n : Nat) : List String :=
  ((List.range n).map (fun j => findall_xid (pages (start + j)))).flatten

/-! ## C7: resolution inference from the `H264-<w>x<h>` URL token -/

/-- "The URL contains a token of the shape `H264-<width>x<height>`". -/
def h264TokenIn (u : String) : Prop :=
  ∃ a dw dh b, u.data = a ++ h264Lit ++ dw ++ ('x' :: dh) ++ b ∧ dw ≠ [] ∧ dh ≠ [] ∧
    (∀ c ∈ dw, isDigitChar c) ∧ (∀ c ∈ dh, isDigitChar c)

/-! ## C9: the release-date meta tag -/

/-- "The markup contains the release-date metadata tag with a
`YYYY-MM-DD`-shaped value" — the shape accepted by the pattern on
line 111. -/
def relDateTagIn (wp : String) : Prop :=
  ∃ a y m d g b,
    wp.data =
      a ++ relDateLit ++ y ++ ('-' :: m) ++ ('-' :: d) ++ g ++ (("\"/>").data) ++ b ∧
    y.length = 4 ∧ m.length = 2 ∧ d.length = 2 ∧
    (∀ c ∈ y, isDigitChar c) ∧ (∀ c ∈ m, isDigitChar c) ∧ (∀ c ∈ d, isDigitChar c) ∧
    g ≠ [] ∧ (∀ c ∈ g, c ≠ '\n')

/-- A concrete video page carrying a release-date meta tag. -/
def datePage : String :=
  "<meta property=\"video:release_date\" content=\"2015-03-06 00:00:00\"/>"

/-- A concrete environment under which extraction fully succeeds. -/
def dateEnv : VideoEnv :=
  { webpage := datePage,
    embedInfo := some (some
      [("stream_h264_url", JVal.str ("u")),
       ("owner.screenname", JVal.str ("IGN")),
       ("thumbnail_url", JVal.str ("t")),
       ("duration", JVal.num 74)]),
    subFetch := Except.error ("net"),
    ogTitle := some ("T"),
    spanTitle := none,
    viewCount := none }

/-- The metadata record `real_extract` produces in `dateEnv`. -/
def dateMd : VideoMetadata :=
  { id := "x2iuewm",
    formats := [{ url := "u", ext := "mp4", format_id := "standard",
                  width := none, height := none }],
    uploader := JVal.str ("IGN"),
    upload_date := some ("20150306"),
    title := "T",
    subtitles := [],
    thumbnail := JVal.str ("t"),
    age_limit := 0,
    view_count := none,
    duration := JVal.num 74 }

/-- A concrete page with a Vevo player link, in an environment whose embed
stage would fail if it were ever consulted. -/
def vevoEnv : VideoEnv :=
  { webpage := "<link rel=\"video_src\" href=\"http://c.vevo.com/e.html?video=ABC123\"",
    embedInfo := none,
    subFetch := Except.error ("net"),
    ogTitle := none,
    spanTitle := none,
    viewCount := none }

/-- A concrete environment whose descriptor reports a site error. -/
def siteErrorEnv : VideoEnv :=
  { webpage := "x",
    embedInfo := some (some
      [("error", JVal.obj [("title", JVal.str ("Content unavailable"))])]),
    subFetch := Except.error ("net"),
    ogTitle := none,
    spanTitle := none,
    viewCount := none }

/-- A concrete environment whose descriptor has no stream URL at all. -/
def noFormatsEnv : VideoEnv :=
  { webpage := "x",
    embedInfo := some (some [("duration", JVal.num 3)]),
    subFetch := Except.error ("net"),
    ogTitle := none,
    spanTitle := none,
    viewCount := none }

/-- Environment whose subtitle listing body is not valid JSON. -/
def badJsonEnv : VideoEnv :=
  { webpage := "x",
    embedInfo := some (some [("stream_h264_url", JVal.str ("u"))]),
    subFetch := Except.ok none,
    ogTitle := some ("T"),
    spanTitle := none,
    viewCount := none }

/-- Environment whose subtitle listing parses to an object without
`total`. -/
def noTotalEnv : VideoEnv :=
  { webpage := "x",
    embedInfo := some (some [("stream_h264_url", JVal.str ("u"))]),
    subFetch := Except.ok (some (JVal.obj [("list", JVal.arr [])])),
    ogTitle := some ("T"),
    spanTitle := none,
    viewCount := none }

/-- Environment whose subtitle listing succeeds with `total = 0`. -/
def zeroSubsEnv : VideoEnv :=
  { webpage := "x",
    embedInfo := some (some [("stream_h264_url", JVal.str ("u"))]),
    subFetch := Except.ok (some (JVal.obj [("total", JVal.num 0)])),
    ogTitle := some ("T"),
    spanTitle := none,
    viewCount := none }

/-! ## C2: fixed tier order of the collected formats -/

/-- The format (if any) the loop emits for one `_FORMATS` entry. -/
def formatPick (info : List (String × JVal)) (kf : String × String) : Option Format :=
  match pyGet info kf.1 with
  | some (JVal.str u) => some (mkFormat u kf.2)
  | _ => none

/-- A stream descriptor listing the `hd` tier before the `ld` tier. -/
def scrambledInfo : List (String × JVal) :=
  [("stream_h264_hd_url", JVal.str ("http://e/H264-1280x720/v.mp4")),
   ("stream_h264_ld_url", JVal.str ("u1"))]

/-- The formats the loop emits for `scrambledInfo`: `ld` first, in table
order, although the descriptor lists `hd` first. -/
def scrambledFormats : List Format :=
  [{ url := "u1", ext := "mp4", format_id := "ld", width := none, height := none },
   { url := "http://e/H264-1280x720/v.mp4", ext := "mp4", format_id := "hd",
     width := some 1280, height := some 720 }]

/-! ## C5 / C6: de-duplication and termination of the pagination loop -/

/-- Position of the first occurrence of `x`. -/
def idxOfFirst (x : String) : List String → Nat
  | [] => 0
  | y :: ys => if y = x then 0 else idxOfFirst x ys + 1

/-- A listing page carrying ids `a`, `b` and the more-pages indicator. -/
def pageWithMore : String :=
  "data-xid=\"a\"data-xid=\"b\"<div class=\"pages\"><a class=\"icon-arrow_right\">"

/-- A listing page carrying ids `b`, `c` and no indicator. -/
def pageLast : String := "data-xid=\"b\"data-xid=\"c\""

def wPages : Nat → String := fun n => if n = 1 then pageWithMore else pageLast

/-- Agrees with `wPages` on pages 1 and 2 but would paginate forever past
them. -/
def wPages2 : Nat → String := fun n => if n ≤ 2 then wPages n else pageWithMore

def wPagesInf : Nat → String := fun _ => pageWithMore

/-! ## Soundness and completeness of the matcher combinators -/

theorem matchLit_some_eq {lit s r : List Char} (h : matchLit lit s = some r) :
    s = lit ++ r := by
  induction lit generalizing s with
  | nil =>
    rw [matchLit] at h
    rw [List.nil_append]
    exact Option.some.inj h
  | cons l ls ih =>
    cases s with
    | nil => simp [matchLit] at h
    | cons c cs =>
      rw [matchLit] at h
      split at h
      · next hc => subst hc; simpa using ih h
      · exact absurd h (by simp)

theorem matchLit_append (lit r : List Char) : matchLit lit (lit ++ r) = some r := by
  induction lit with
  | nil => rfl
  | cons l ls ih => simp [matchLit, ih]

theorem searchO_eq_some {α : Type} {f : List Char → Option α} {s : List Char} {x : α}
    (h : searchO f s = some x) : ∃ a b, s = a ++ b ∧ f b = some x := by
  induction s with
  | nil => exact ⟨[], [], rfl, h⟩
  | cons c cs ih =>
    rw [searchO] at h
    split at h
    · next y hy => refine ⟨[], c :: cs, rfl, ?_⟩; rw [hy]; exact h
    · obtain ⟨a, b, hab, hfb⟩ := ih h
      exact ⟨c :: a, b, by simp [hab], hfb⟩

theorem searchO_isSome {α : Type} {f : List Char → Option α} (a : List Char)
    {b : List Char} (h : (f b).isSome) : (searchO f (a ++ b)).isSome := by
  induction a with
  | nil =>
    rw [List.nil_append]
    cases b with
    | nil => rw [searchO]; exact h
    | cons c cs =>
      rw [searchO]
      split
      · simp
      · next hnone => rw [hnone] at h; simp at h
  | cons c cs ih =>
    rw [List.cons_append, searchO]
    split
    · simp
    · exact ih

theorem firstSome_eq_some {α β : Type} {f : α → Option β} {l : List α} {b : β}
    (h : firstSome f l = some b) : ∃ a ∈ l, f a = some b := by
  induction l with
  | nil => simp [firstSome] at h
  | cons x xs ih =>
    rw [firstSome] at h
    split at h
    · next y hy => refine ⟨x, by simp, ?_⟩; rw [hy]; exact h
    · obtain ⟨a, ha, hfa⟩ := ih h
      exact ⟨a, by simp [ha], hfa⟩

theorem gapUntilM_mem {allowed : Char → Bool} {m : List Char → Option (List Char)}
    {s r : List Char} (h : r ∈ gapUntilM allowed m s) :
    ∃ g t, s = g ++ t ∧ (∀ c ∈ g, allowed c) ∧ m t = some r := by
  induction s with
  | nil =>
    refine ⟨[], [], rfl, by simp, ?_⟩
    rw [gapUntilM] at h
    cases hm : m [] with
    | none => rw [hm] at h; simp at h
    | some v =>
      rw [hm] at h
      simp only [Option.toList_some, List.mem_singleton] at h
      rw [h]
  | cons c cs ih =>
    rw [gapUntilM] at h
    rcases List.mem_append.mp h with h1 | h2
    · refine ⟨[], c :: cs, rfl, by simp, ?_⟩
      cases hm : m (c :: cs) with
      | none => rw [hm] at h1; simp at h1
      | some v =>
        rw [hm] at h1
        simp only [Option.toList_some, List.mem_singleton] at h1
        rw [h1]
    · split at h2
      · next hc =>
        obtain ⟨g, t, hgt, hg, hm⟩ := ih h2
        refine ⟨c :: g, t, by simp [hgt], ?_, hm⟩
        intro x hx
        rcases List.mem_cons.mp hx with rfl | hx2
        · exact hc
        · exact hg x hx2
      · simp at h2

theorem gapUntilM_head_ne_nil {allowed : Char → Bool} {m : List Char → Option (List Char)}
    {s : List Char} (hm : (m s).isSome) : gapUntilM allowed m s ≠ [] := by
  cases s with
  | nil =>
    rw [gapUntilM]
    cases hmt : m [] with
    | none => rw [hmt] at hm; simp at hm
    | some v => simp [hmt]
  | cons c cs =>
    rw [gapUntilM]
    cases hmt : m (c :: cs) with
    | none => rw [hmt] at hm; simp at hm
    | some v => simp [hmt]

theorem gapUntilM_ne_nil {allowed : Char → Bool} {m : List Char → Option (List Char)}
    {g t : List Char} (hg : ∀ c ∈ g, allowed c) (hm : (m t).isSome) :
    gapUntilM allowed m (g ++ t) ≠ [] := by
  induction g with
  | nil => rw [List.nil_append]; exact gapUntilM_head_ne_nil hm
  | cons c cs ih =>
    rw [List.cons_append, gapUntilM]
    have hc : allowed c := hg c (by simp)
    have htl := ih (fun x hx => hg x (by simp [hx]))
    simp only [hc, if_true]
    intro hemp
    rcases List.append_eq_nil.mp hemp with ⟨-, h2⟩
    exact htl h2

theorem takeExact_some {p : Char → Bool} :
    ∀ {n : Nat} {s pre rest : List Char}, takeExact n p s = some (pre, rest) →
      s = pre ++ rest ∧ pre.length = n ∧ ∀ c ∈ pre, p c := by
  intro n
  induction n with
  | zero =>
    intro s pre rest h
    rw [takeExact] at h
    simp only [Option.some.injEq, Prod.mk.injEq] at h
    obtain ⟨h1, h2⟩ := h
    subst h1 h2
    simp
  | succ n ih =>
    intro s pre rest h
    cases s with
    | nil => simp [takeExact] at h
    | cons c cs =>
      rw [takeExact] at h
      split at h
      · next hc =>
        cases hte : takeExact n p cs with
        | none => rw [hte] at h; simp at h
        | some x =>
          rw [hte] at h
          obtain ⟨x1, x2⟩ := x
          simp only [Option.map, Option.some.injEq, Prod.mk.injEq] at h
          obtain ⟨h1, h2⟩ := h
          obtain ⟨ha, hb, hall⟩ := ih hte
          subst h2
          rw [← h1]
          refine ⟨by simp [ha], by simp [hb], ?_⟩
          intro d hd
          rcases List.mem_cons.mp hd with rfl | hd2
          · exact hc
          · exact hall d hd2
      · simp at h

theorem takeExact_append {p : Char → Bool} :
    ∀ {l : List Char}, (∀ c ∈ l, p c) → ∀ (m : List Char),
      takeExact l.length p (l ++ m) = some (l, m) := by
  intro l
  induction l with
  | nil => intro _ m; rfl
  | cons c cs ih =>
    intro h m
    have hc : p c := h c (by simp)
    rw [List.length_cons, List.cons_append, takeExact]
    simp [hc, ih (fun x hx => h x (by simp [hx])) m]

theorem takeWhile_append_all {p : Char → Bool} {l : List Char} (h : ∀ c ∈ l, p c)
    (m : List Char) : (l ++ m).takeWhile p = l ++ m.takeWhile p := by
  induction l with
  | nil => rfl
  | cons c cs ih =>
    have hc : p c := h c (by simp)
    simp [List.takeWhile_cons, hc, ih (fun x hx => h x (by simp [hx]))]

theorem dropWhile_append_all {p : Char → Bool} {l : List Char} (h : ∀ c ∈ l, p c)
    (m : List Char) : (l ++ m).dropWhile p = m.dropWhile p := by
  induction l with
  | nil => rfl
  | cons c cs ih =>
    have hc : p c := h c (by simp)
    simp [List.dropWhile_cons, hc, ih (fun x hx => h x (by simp [hx]))]

theorem h264At_some {s : List Char} {w h : Nat} (hs : h264At s = some (w, h)) :
    ∃ dw dh b, s = h264Lit ++ dw ++ ('x' :: dh) ++ b ∧ dw ≠ [] ∧ dh ≠ [] ∧
      (∀ c ∈ dw, isDigitChar c) ∧ (∀ c ∈ dh, isDigitChar c) ∧
      digitsToNat dw = w ∧ digitsToNat dh = h := by
  unfold h264At at hs
  cases hml : matchLit h264Lit s with
  | none => rw [hml] at hs; simp at hs
  | some r =>
    rw [hml] at hs
    simp only [Option.some_bind] at hs
    split at hs
    · simp at hs
    · next hne =>
      split at hs
      · next r2 hdrop =>
        split at hs
        · simp at hs
        · next hne2 =>
          simp only [Option.some.injEq, Prod.mk.injEq] at hs
          obtain ⟨hw, hh⟩ := hs
          refine ⟨r.takeWhile isDigitChar, r2.takeWhile isDigitChar,
            r2.dropWhile isDigitChar, ?_, ?_, ?_, ?_, ?_, hw, ?_⟩
          · rw [matchLit_some_eq hml]
            have h1 : r = r.takeWhile isDigitChar ++ r.dropWhile isDigitChar :=
              (List.takeWhile_append_dropWhile isDigitChar r).symm
            have h2 : r2 = r2.takeWhile isDigitChar ++ r2.dropWhile isDigitChar :=
              (List.takeWhile_append_dropWhile isDigitChar r2).symm
            conv_lhs => rw [h1, hdrop, h2]
            simp [List.append_assoc]
          · simpa [List.isEmpty_eq_false] using hne
          · simpa [List.isEmpty_eq_false] using hne2
          · intro c hc; exact List.mem_takeWhile_imp hc
          · intro c hc; exact List.mem_takeWhile_imp hc
          · exact hh
      · simp at hs

theorem searchH264_some_token {u : String} {w h : Nat} (hs : searchH264 u = some (w, h)) :
    ∃ a dw dh b, u.data = a ++ h264Lit ++ dw ++ ('x' :: dh) ++ b ∧ dw ≠ [] ∧ dh ≠ [] ∧
      (∀ c ∈ dw, isDigitChar c) ∧ (∀ c ∈ dh, isDigitChar c) ∧
      digitsToNat dw = w ∧ digitsToNat dh = h := by
  obtain ⟨a, b, hab, hat⟩ := searchO_eq_some hs
  obtain ⟨dw, dh, b2, hb, h1, h2, h3, h4, h5, h6⟩ := h264At_some hat
  exact ⟨a, dw, dh, b2, by rw [hab, hb]; simp [List.append_assoc], h1, h2, h3, h4, h5, h6⟩

theorem h264At_isSome {dw dh b : List Char} (h1 : dw ≠ []) (h2 : dh ≠ [])
    (h3 : ∀ c ∈ dw, isDigitChar c) (h4 : ∀ c ∈ dh, isDigitChar c) :
    (h264At (h264Lit ++ (dw ++ ('x' :: (dh ++ b))))).isSome := by
  unfold h264At
  rw [matchLit_append, Option.some_bind]
  have hds : (dw ++ ('x' :: (dh ++ b))).takeWhile isDigitChar = dw := by
    rw [takeWhile_append_all h3]
    simp [List.takeWhile_cons, isDigitChar]
  have hdrop : (dw ++ ('x' :: (dh ++ b))).dropWhile isDigitChar = 'x' :: (dh ++ b) := by
    rw [dropWhile_append_all h3]
    simp [List.dropWhile_cons, isDigitChar]
  have hhs : (dh ++ b).takeWhile isDigitChar = dh ++ b.takeWhile isDigitChar :=
    takeWhile_append_all h4 b
  rw [hds, hdrop]
  simp only [List.isEmpty_eq_false.mpr h1, if_false, hhs]
  have : (dh ++ b.takeWhile isDigitChar).isEmpty = false := by
    simp [List.isEmpty_eq_false, h2]
  simp [this]

theorem searchH264_isSome_of_token {u : String} (h : h264TokenIn u) :
    (searchH264 u).isSome := by
  obtain ⟨a, dw, dh, b, he, h1, h2, h3, h4⟩ := h
  unfold searchH264
  have he2 : u.data = a ++ (h264Lit ++ (dw ++ ('x' :: (dh ++ b)))) := by
    rw [he]; simp [List.append_assoc]
  rw [he2]
  exact searchO_isSome a (h264At_isSome h1 h2 h3 h4)

/-- C7: a format URL containing an `H264-<width>x<height>` token yields a
`Format` whose width and height are the decoded integers of a token present
in the URL; a URL without such a token yields a `Format` with both unset. -/
theorem claim_C7_resolution_inference (u fid : String) :
    (¬ h264TokenIn u → (mkFormat u fid).width = none ∧ (mkFormat u fid).height = none) ∧
    (h264TokenIn u →
      ∃ a dw dh b, u.data = a ++ h264Lit ++ dw ++ ('x' :: dh) ++ b ∧ dw ≠ [] ∧ dh ≠ [] ∧
        (∀ c ∈ dw, isDigitChar c) ∧ (∀ c ∈ dh, isDigitChar c) ∧
        (mkFormat u fid).width = some (digitsToNat dw) ∧
        (mkFormat u fid).height = some (digitsToNat dh)) := by
  constructor
  · intro hno
    cases hs : searchH264 u with
    | none => simp [mkFormat, hs]
    | some wh =>
      obtain ⟨w, h⟩ := wh
      obtain ⟨a, dw, dh, b, he, h1, h2, h3, h4, -, -⟩ := searchH264_some_token hs
      exact absurd ⟨a, dw, dh, b, he, h1, h2, h3, h4⟩ hno
  · intro hyes
    have hsome := searchH264_isSome_of_token hyes
    cases hs : searchH264 u with
    | none => rw [hs] at hsome; simp at hsome
    | some wh =>
      obtain ⟨w, h⟩ := wh
      obtain ⟨a, dw, dh, b, he, h1, h2, h3, h4, h5, h6⟩ := searchH264_some_token hs
      exact ⟨a, dw, dh, b, he, h1, h2, h3, h4,
        by simp [mkFormat, hs, h5], by simp [mkFormat, hs, h6]⟩

/-! ## Inversion of a successful `_real_extract` run -/

theorem real_extract_ok_inv {vid : String} {env : VideoEnv} {md : VideoMetadata}
    (h : (real_extract vid env).1 = Except.ok (ExtractResult.metadata md)) :
    searchVevo env.webpage = none ∧
    ∃ info formats,
      env.embedInfo = some (some info) ∧
      pyGet info ("error") = none ∧
      buildFormats info = Except.ok formats ∧
      formats ≠ [] ∧
      md.formats = formats ∧
      md.id = vid ∧
      md.upload_date = (searchReleaseDate env.webpage).map (fun g => g.1 ++ g.2.1 ++ g.2.2) ∧
      md.age_limit = rta_search env.webpage ∧
      (get_subtitles vid env).1 = Except.ok md.subtitles := by
  unfold real_extract at h
  split at h
  · simp at h
  · next hv =>
    refine ⟨hv, ?_⟩
    split at h
    · simp at h
    · simp at h
    · next info hinfo =>
      refine ⟨info, ?_⟩
      split at h
      · split at h <;> simp at h
      · next herr =>
        split at h
        · simp at h
        · next formats hbf =>
          split at h
          · simp at h
          · next hne =>
            split at h
            · simp at h
            · next subs hsubs =>
              split at h
              · simp at h
              · next title hti =>
                split at h
                · simp at h
                · next uploader hu =>
                  split at h
                  · simp at h
                  · next thumbnail hth =>
                    split at h
                    · simp at h
                    · next duration hdu =>
                      simp only [Except.ok.injEq, ExtractResult.metadata.injEq] at h
                      subst h
                      refine ⟨formats, hinfo, herr, hbf, ?_, rfl, rfl, rfl, rfl, ?_⟩
                      · intro hnil
                        rw [hnil] at hne
                        simp at hne
                      · rw [hsubs]

theorem relDateTail_split {r : List Char} (h : relDateTail r = true) :
    ∃ g b, r = g ++ (("\"/>").data) ++ b ∧ g ≠ [] ∧ ∀ c ∈ g, c ≠ '\n' := by
  cases r with
  | nil => simp [relDateTail] at h
  | cons c cs =>
    rw [relDateTail] at h
    simp only [Bool.and_eq_true, Bool.not_eq_true', decide_eq_true_eq] at h
    obtain ⟨hc, hne⟩ := h
    have hnn : gapUntilM (fun d => d ≠ '\n') (matchLit (("\"/>").data)) cs ≠ [] := by
      intro hnil
      rw [hnil] at hne
      simp at hne
    obtain ⟨x, hx⟩ := List.exists_mem_of_ne_nil _ hnn
    obtain ⟨g2, t, hgt, hg2, hm⟩ := gapUntilM_mem hx
    refine ⟨c :: g2, x, ?_, by simp, ?_⟩
    · have ht := matchLit_some_eq hm
      rw [hgt, ht]
      simp [List.append_assoc]
    · intro d hd
      rcases List.mem_cons.mp hd with rfl | hd2
      · exact hc
      · exact fun hdn => by simpa [hdn] using hg2 d hd2

theorem relDateAt_some {s : List Char} {ys ms ds : String}
    (h : relDateAt s = some (ys, ms, ds)) :
    ∃ g b,
      s = relDateLit ++ ys.data ++ ('-' :: ms.data) ++ ('-' :: ds.data) ++ g ++
        (("\"/>").data) ++ b ∧
      ys.data.length = 4 ∧ ms.data.length = 2 ∧ ds.data.length = 2 ∧
      (∀ c ∈ ys.data, isDigitChar c) ∧ (∀ c ∈ ms.data, isDigitChar c) ∧
      (∀ c ∈ ds.data, isDigitChar c) ∧ g ≠ [] ∧ (∀ c ∈ g, c ≠ '\n') := by
  unfold relDateAt at h
  cases h0 : matchLit relDateLit s with
  | none => rw [h0] at h; simp at h
  | some r0 =>
    rw [h0, Option.some_bind] at h
    cases h1 : takeExact 4 isDigitChar r0 with
    | none => rw [h1] at h; simp at h
    | some y =>
      obtain ⟨y1, y2⟩ := y
      rw [h1, Option.some_bind] at h
      cases h2 : matchLit (("-").data) y2 with
      | none => rw [h2] at h; simp at h
      | some r1 =>
        rw [h2, Option.some_bind] at h
        cases h3 : takeExact 2 isDigitChar r1 with
        | none => rw [h3] at h; simp at h
        | some m =>
          obtain ⟨m1, m2⟩ := m
          rw [h3, Option.some_bind] at h
          cases h4 : matchLit (("-").data) m2 with
          | none => rw [h4] at h; simp at h
          | some r2 =>
            rw [h4, Option.some_bind] at h
            cases h5 : takeExact 2 isDigitChar r2 with
            | none => rw [h5] at h; simp at h
            | some d =>
              obtain ⟨d1, d2⟩ := d
              rw [h5, Option.some_bind] at h
              split at h
              · next htail =>
                simp only [Option.some.injEq, Prod.mk.injEq] at h
                obtain ⟨hy, hm, hd⟩ := h
                obtain ⟨hr0, hy4, hyall⟩ := takeExact_some h1
                obtain ⟨hr1, hm2, hmall⟩ := takeExact_some h3
                obtain ⟨hr2, hd2, hdall⟩ := takeExact_some h5
                have hd2tail : relDateTail d2 = true := htail
                obtain ⟨g, b, hd2eq, hgne, hgnl⟩ := relDateTail_split hd2tail
                have hy2 : y2 = '-' :: r1 := matchLit_some_eq h2
                have hm2eq : m2 = '-' :: r2 := matchLit_some_eq h4
                have hs : s = relDateLit ++ r0 := matchLit_some_eq h0
                subst hy hm hd
                subst hs hr0 hy2 hr1 hm2eq hr2 hd2eq
                refine ⟨g, b, ?_, hy4, hm2, hd2, hyall, hmall, hdall, hgne, hgnl⟩
                simp [List.append_assoc]
              · simp at h

theorem relDateAt_isSome {y m d g b : List Char}
    (hy4 : y.length = 4) (hm2 : m.length = 2) (hd2 : d.length = 2)
    (hyd : ∀ c ∈ y, isDigitChar c) (hmd : ∀ c ∈ m, isDigitChar c)
    (hdd : ∀ c ∈ d, isDigitChar c) (hg : g ≠ []) (hgn : ∀ c ∈ g, c ≠ '\n') :
    (relDateAt (relDateLit ++
      (y ++ ('-' :: (m ++ ('-' :: (d ++ (g ++ ((("\"/>").data) ++ b))))))))).isSome := by
  unfold relDateAt
  rw [matchLit_append, Option.some_bind]
  have hty : takeExact 4 isDigitChar
      (y ++ ('-' :: (m ++ ('-' :: (d ++ (g ++ ((("\"/>").data) ++ b))))))) =
      some (y, '-' :: (m ++ ('-' :: (d ++ (g ++ ((("\"/>").data) ++ b)))))) := by
    rw [← hy4]; exact takeExact_append hyd _
  rw [hty, Option.some_bind]
  have hdash : matchLit (("-").data) ('-' :: (m ++ ('-' :: (d ++ (g ++ ((("\"/>").data) ++ b)))))) =
      some (m ++ ('-' :: (d ++ (g ++ ((("\"/>").data) ++ b))))) :=
    matchLit_append (("-").data) _
  rw [hdash, Option.some_bind]
  have htm : takeExact 2 isDigitChar (m ++ ('-' :: (d ++ (g ++ ((("\"/>").data) ++ b))))) =
      some (m, '-' :: (d ++ (g ++ ((("\"/>").data) ++ b)))) := by
    rw [← hm2]; exact takeExact_append hmd _
  rw [htm, Option.some_bind]
  have hdash2 : matchLit (("-").data) ('-' :: (d ++ (g ++ ((("\"/>").data) ++ b)))) =
      some (d ++ (g ++ ((("\"/>").data) ++ b))) :=
    matchLit_append (("-").data) _
  rw [hdash2, Option.some_bind]
  have htd : takeExact 2 isDigitChar (d ++ (g ++ ((("\"/>").data) ++ b))) =
      some (d, g ++ ((("\"/>").data) ++ b)) := by
    rw [← hd2]; exact takeExact_append hdd _
  rw [htd, Option.some_bind]
  have htail : relDateTail (g ++ ((("\"/>").data) ++ b)) = true := by
    cases g with
    | nil => exact absurd rfl hg
    | cons gc g2 =>
      rw [List.cons_append, relDateTail]
      have hgc : gc ≠ '\n' := hgn gc (by simp)
      have hgap : gapUntilM (fun x => x ≠ '\n') (matchLit (("\"/>").data))
          (g2 ++ ((("\"/>").data) ++ b)) ≠ [] := by
        have h1 : ∀ c ∈ g2, (fun x : Char => (x ≠ '\n' : Bool)) c := by
          intro c hc
          simpa using hgn c (by simp [hc])
        have h2 : (matchLit (("\"/>").data) ((("\"/>").data) ++ b)).isSome := by
          rw [matchLit_append]; rfl
        exact gapUntilM_ne_nil h1 h2
      have hb1 : (decide (gc ≠ '\n')) = true := by simpa using hgc
      have hb2 : (gapUntilM (fun x => x ≠ '\n') (matchLit (("\"/>").data))
          (g2 ++ ((("\"/>").data) ++ b))).isEmpty = false :=
        List.isEmpty_eq_false.mpr hgap
      rw [hb1, hb2]
      rfl
  rw [htail]
  rfl

theorem searchReleaseDate_some_tag {wp : String} {ys ms ds : String}
    (h : searchReleaseDate wp = some (ys, ms, ds)) :
    ∃ a g b,
      wp.data = a ++ relDateLit ++ ys.data ++ ('-' :: ms.data) ++ ('-' :: ds.data) ++ g ++
        (("\"/>").data) ++ b ∧
      ys.data.length = 4 ∧ ms.data.length = 2 ∧ ds.data.length = 2 ∧
      (∀ c ∈ ys.data, isDigitChar c) ∧ (∀ c ∈ ms.data, isDigitChar c) ∧
      (∀ c ∈ ds.data, isDigitChar c) ∧ g ≠ [] ∧ (∀ c ∈ g, c ≠ '\n') := by
  obtain ⟨a, t, hat, hrel⟩ := searchO_eq_some h
  obtain ⟨g, b, ht, p1, p2, p3, p4, p5, p6, p7, p8⟩ := relDateAt_some hrel
  refine ⟨a, g, b, ?_, p1, p2, p3, p4, p5, p6, p7, p8⟩
  rw [hat, ht]
  simp [List.append_assoc]

theorem searchReleaseDate_isSome_of_tag {wp : String} (h : relDateTagIn wp) :
    (searchReleaseDate wp).isSome := by
  obtain ⟨a, y, m, d, g, b, he, hy4, hm2, hd2, hyd, hmd, hdd, hg, hgn⟩ := h
  unfold searchReleaseDate
  have he2 : wp.data =
      a ++ (relDateLit ++ (y ++ ('-' :: (m ++ ('-' :: (d ++ (g ++ ((("\"/>").data) ++ b)))))))) := by
    rw [he]; simp [List.append_assoc]
  rw [he2]
  exact searchO_isSome a (relDateAt_isSome hy4 hm2 hd2 hyd hmd hdd hg hgn)

/-- C9: for every video page whose markup contains the release-date meta
tag with a `YYYY-MM-DD`-shaped value, a successfully returned metadata
record has `upload_date` equal to the matched date groups with the dashes
removed (`YYYYMMDD`); for a page without such a tag, `upload_date` is
absent. -/
theorem claim_C9_upload_date {vid : String} {env : VideoEnv} {md : VideoMetadata}
    (h : (real_extract vid env).1 = Except.ok (ExtractResult.metadata md)) :
    (¬ relDateTagIn env.webpage → md.upload_date = none) ∧
    (relDateTagIn env.webpage →
      ∃ y m d : String,
        searchReleaseDate env.webpage = some (y, m, d) ∧
        (∃ a g b,
          env.webpage.data = a ++ relDateLit ++ y.data ++ ('-' :: m.data) ++
            ('-' :: d.data) ++ g ++ (("\"/>").data) ++ b ∧
          y.data.length = 4 ∧ m.data.length = 2 ∧ d.data.length = 2 ∧
          (∀ c ∈ y.data, isDigitChar c) ∧ (∀ c ∈ m.data, isDigitChar c) ∧
          (∀ c ∈ d.data, isDigitChar c) ∧ g ≠ [] ∧ (∀ c ∈ g, c ≠ '\n')) ∧
        md.upload_date = some (y ++ m ++ d)) := by
  obtain ⟨-, info, formats, -, -, -, -, -, -, hud, -, -⟩ := real_extract_ok_inv h
  constructor
  · intro hno
    rw [hud]
    cases hs : searchReleaseDate env.webpage with
    | none => rfl
    | some g3 =>
      obtain ⟨y, m, d⟩ := g3
      obtain ⟨a, g, b, he, p1, p2, p3, p4, p5, p6, p7, p8⟩ := searchReleaseDate_some_tag hs
      exact absurd ⟨a, y.data, m.data, d.data, g, b, he, p1, p2, p3, p4, p5, p6, p7, p8⟩ hno
  · intro hyes
    have hsome := searchReleaseDate_isSome_of_tag hyes
    obtain ⟨g3, hs⟩ := Option.isSome_iff_exists.mp hsome
    obtain ⟨y, m, d⟩ := g3
    obtain ⟨a, g, b, he, p1, p2, p3, p4, p5, p6, p7, p8⟩ := searchReleaseDate_some_tag hs
    refine ⟨y, m, d, hs, ⟨a, g, b, he, p1, p2, p3, p4, p5, p6, p7, p8⟩, ?_⟩
    rw [hud, hs]
    rfl

theorem claim_C9_witness :
    (real_extract ("x2iuewm") dateEnv).1 = Except.ok (ExtractResult.metadata dateMd) ∧
    relDateTagIn datePage ∧
    (∃ y m d : String,
      searchReleaseDate dateEnv.webpage = some (y, m, d) ∧
      (∃ a g b,
        dateEnv.webpage.data = a ++ relDateLit ++ y.data ++ ('-' :: m.data) ++
          ('-' :: d.data) ++ g ++ (("\"/>").data) ++ b ∧
        y.data.length = 4 ∧ m.data.length = 2 ∧ d.data.length = 2 ∧
        (∀ c ∈ y.data, isDigitChar c) ∧ (∀ c ∈ m.data, isDigitChar c) ∧
        (∀ c ∈ d.data, isDigitChar c) ∧ g ≠ [] ∧ (∀ c ∈ g, c ≠ '\n')) ∧
      dateMd.upload_date = some (y ++ m ++ d)) := by
  have h : (real_extract ("x2iuewm") dateEnv).1 = Except.ok (ExtractResult.metadata dateMd) :=
    rfl
  have htag : relDateTagIn datePage :=
    ⟨[], ("2015").data, ("03").data, ("06").data, (" 00:00:00").data, [],
      by decide, by decide, by decide, by decide, by decide, by decide, by decide,
      by decide, by decide⟩
  exact ⟨h, htag, (claim_C9_upload_date h).2 htag⟩

/-! ## C1: Vevo delegation short-circuits the pipeline -/

theorem matchVevoDotCom_some {s r : List Char} (h : matchVevoDotCom s = some r) :
    ∃ c, s = ("vevo").data ++ (c :: ((("com").data) ++ r)) ∧ c ≠ '\n' := by
  unfold matchVevoDotCom at h
  split at h
  · simp at h
  · simp at h
  · next c cs hm =>
    split at h
    · simp at h
    · next hc =>
      refine ⟨c, ?_, hc⟩
      rw [matchLit_some_eq hm, matchLit_some_eq h]

theorem vevoAt_some {s : List Char} {vid : String} (h : vevoAt s = some vid) :
    ∃ q1 c q2 b,
      s = vevoLinkLit ++ q1 ++ ((("vevo").data) ++ (c :: (("com").data))) ++ q2 ++
        (("video=").data) ++ vid.data ++ b ∧
      (∀ x ∈ q1, x ≠ '"') ∧ c ≠ '\n' ∧ (∀ x ∈ q2, x ≠ '"') ∧
      (∀ x ∈ vid.data, isWordChar x) := by
  unfold vevoAt at h
  cases hm : matchLit vevoLinkLit s with
  | none => rw [hm] at h; simp at h
  | some r1 =>
    rw [hm, Option.some_bind] at h
    obtain ⟨r2, hr2mem, hinner⟩ := firstSome_eq_some h
    obtain ⟨q1, t1, ht1, hq1, hvc⟩ := gapUntilM_mem hr2mem
    obtain ⟨c, ht1eq, hcnl⟩ := matchVevoDotCom_some hvc
    obtain ⟨r3, hr3mem, hid⟩ := firstSome_eq_some hinner
    obtain ⟨q2, t2, ht2, hq2, hv⟩ := gapUntilM_mem hr3mem
    have hvid : vid.data = r3.takeWhile isWordChar := by
      have hinj := Option.some.inj hid
      rw [← hinj]
    have hr3 : r3 = vid.data ++ r3.dropWhile isWordChar := by
      rw [hvid]
      exact (List.takeWhile_append_dropWhile isWordChar r3).symm
    refine ⟨q1, c, q2, r3.dropWhile isWordChar, ?_, ?_, hcnl, ?_, ?_⟩
    · have hs : s = vevoLinkLit ++ r1 := matchLit_some_eq hm
      have ht2eq : t2 = (("video=").data) ++ r3 := matchLit_some_eq hv
      rw [hs, ht1, ht1eq, ht2, ht2eq]
      conv_lhs => rw [hr3]
      simp [List.append_assoc]
    · intro x hx
      simpa using hq1 x hx
    · intro x hx
      simpa using hq2 x hx
    · intro x hx
      rw [hvid] at hx
      exact List.mem_takeWhile_imp hx

/-- C1: a video page whose markup contains a Vevo player link with a
foreign id makes `_real_extract` return the delegation signal
`url_result ("vevo:" ++ id)` (not a metadata record); the effect trace
stops at the detection message, so no embed-page fetch, no subtitle fetch
and no further parsing happens, whatever the rest of the environment
holds. -/
theorem claim_C1_vevo_delegation (vid : String) (env : VideoEnv) (vevoId : String)
    (h : searchVevo env.webpage = some vevoId) :
    (∃ q0 q1 c q2 b,
      env.webpage.data = q0 ++ vevoLinkLit ++ q1 ++ ((("vevo").data) ++ (c :: (("com").data)))
        ++ q2 ++ (("video=").data) ++ vevoId.data ++ b ∧
      (∀ x ∈ q1, x ≠ '"') ∧ c ≠ '\n' ∧ (∀ x ∈ q2, x ≠ '"') ∧
      (∀ x ∈ vevoId.data, isWordChar x)) ∧
    real_extract vid env =
      (Except.ok (ExtractResult.urlResult (url_result ("vevo:" ++ vevoId) ("Vevo"))),
       [Eff.download (build_request ("https://www.dailymotion.com/video/" ++ vid)) none,
        Eff.reportExtraction vid,
        Eff.toScreen ("Vevo video detected: " ++ vevoId)]) := by
  constructor
  · obtain ⟨a, b0, hab, hat⟩ := searchO_eq_some h
    obtain ⟨q1, c, q2, b, he, hq1, hc, hq2, hw⟩ := vevoAt_some hat
    exact ⟨a, q1, c, q2, b, by rw [hab, he]; simp [List.append_assoc], hq1, hc, hq2, hw⟩
  · unfold real_extract
    rw [h]

theorem claim_C1_witness :
    searchVevo vevoEnv.webpage = some ("ABC123") ∧
    real_extract ("x149uew") vevoEnv =
      (Except.ok (ExtractResult.urlResult (url_result ("vevo:ABC123") ("Vevo"))),
       [Eff.download (build_request ("https://www.dailymotion.com/video/x149uew")) none,
        Eff.reportExtraction ("x149uew"),
        Eff.toScreen ("Vevo video detected: ABC123")]) := by
  have h : searchVevo vevoEnv.webpage = some ("ABC123") := by decide
  exact ⟨h, (claim_C1_vevo_delegation ("x149uew") vevoEnv ("ABC123") h).2⟩

/-! ## C3: the descriptor error field -/

/-- C3: a stream descriptor with a non-null `error` field makes extraction
fail with `ExtractorError(..., expected=True)` whose message embeds the
site-reported title verbatim after the fixed prefix; by contrast the
unexpected parse failure (no descriptor found in the embed page) carries
`expected=False`, so the two are distinguishable. -/
theorem claim_C3_error_field (vid : String) (env : VideoEnv)
    (info : List (String × JVal)) (ev t : JVal)
    (hv : searchVevo env.webpage = none)
    (hi : env.embedInfo = some (some info))
    (he : pyGet info ("error") = some ev)
    (ht : pyIndexVal ev ("title") = Except.ok t) :
    (real_extract vid env).1 =
      Except.error
        (ExErr.extractorError ("Couldn\x27t get video, Dailymotion says: " ++ pyStr t) true) ∧
    (∀ vid2 env2, searchVevo env2.webpage = none → env2.embedInfo = none →
      (real_extract vid2 env2).1 =
        Except.error (ExErr.extractorError ("Unable to extract video info") false)) := by
  constructor
  · simp [real_extract, hv, hi, he, ht]
  · intro vid2 env2 h1 h2
    simp [real_extract, h1, h2]

theorem claim_C3_witness :
    searchVevo ("x") = none ∧
    pyGet [("error", JVal.obj [("title", JVal.str ("Content unavailable"))])] ("error") =
      some (JVal.obj [("title", JVal.str ("Content unavailable"))]) ∧
    ((real_extract ("v1") siteErrorEnv).1 =
      Except.error
        (ExErr.extractorError
          ("Couldn\x27t get video, Dailymotion says: Content unavailable") true) ∧
     (∀ vid2 env2, searchVevo env2.webpage = none → env2.embedInfo = none →
       (real_extract vid2 env2).1 =
         Except.error (ExErr.extractorError ("Unable to extract video info") false))) := by
  refine ⟨by decide, rfl, ?_⟩
  exact claim_C3_error_field ("v1") siteErrorEnv
    [("error", JVal.obj [("title", JVal.str ("Content unavailable"))])]
    (JVal.obj [("title", JVal.str ("Content unavailable"))])
    (JVal.str ("Content unavailable"))
    (by decide) rfl rfl rfl

/-! ## C8: zero collected formats abort the extraction -/

theorem buildFormats_none {info : List (String × JVal)}
    (h : ∀ kf ∈ FORMATS, pyGet info kf.1 = none) : buildFormats info = Except.ok [] := by
  have h1 := h ("stream_h264_ld_url", "ld") (by simp [FORMATS])
  have h2 := h ("stream_h264_url", "standard") (by simp [FORMATS])
  have h3 := h ("stream_h264_hq_url", "hq") (by simp [FORMATS])
  have h4 := h ("stream_h264_hd_url", "hd") (by simp [FORMATS])
  have h5 := h ("stream_h264_hd1080_url", "hd180") (by simp [FORMATS])
  simp only [] at h1 h2 h3 h4 h5
  simp [buildFormats, FORMATS, formatsLoop, h1, h2, h3, h4, h5]

/-- C8: a stream descriptor in which none of the five known quality-tier
URL fields is present makes extraction fail with the `Unable to extract
video URL` error; consequently every successfully resolved metadata record
has a non-empty formats sequence. -/
theorem claim_C8_zero_formats (vid : String) (env : VideoEnv)
    (info : List (String × JVal))
    (hv : searchVevo env.webpage = none)
    (hi : env.embedInfo = some (some info))
    (he : pyGet info ("error") = none)
    (hnone : ∀ kf ∈ FORMATS, pyGet info kf.1 = none) :
    (real_extract vid env).1 =
      Except.error (ExErr.extractorError ("Unable to extract video URL") false) ∧
    (∀ vid2 env2 md, (real_extract vid2 env2).1 = Except.ok (ExtractResult.metadata md) →
      md.formats ≠ []) := by
  constructor
  · have hbf := buildFormats_none hnone
    simp [real_extract, hv, hi, he, hbf]
  · intro vid2 env2 md h
    obtain ⟨-, info2, formats, -, -, -, hne, hf, -, -, -, -⟩ := real_extract_ok_inv h
    rw [hf]
    exact hne

theorem claim_C8_witness :
    (∀ kf ∈ FORMATS, pyGet [("duration", JVal.num 3)] kf.1 = none) ∧
    ((real_extract ("v2") noFormatsEnv).1 =
      Except.error (ExErr.extractorError ("Unable to extract video URL") false) ∧
     (∀ vid2 env2 md, (real_extract vid2 env2).1 = Except.ok (ExtractResult.metadata md) →
       md.formats ≠ [])) := by
  have hnone : ∀ kf ∈ FORMATS, pyGet [("duration", JVal.num 3)] kf.1 = none := by
    intro kf hkf
    fin_cases hkf <;> rfl
  exact ⟨hnone, claim_C8_zero_formats ("v2") noFormatsEnv [("duration", JVal.num 3)]
    (by decide) rfl rfl hnone⟩

/-! ## C10: only the transport error is caught in subtitle resolution -/

/-- C10: `_get_subtitles` catches only the `ExtractorError` raised by the
listing fetch.  A response that arrives but is not valid JSON, or parses
to an object without a `total` field, raises an uncaught Python error
(`ValueError` / `KeyError`), and through `extract_subtitles` that error
aborts the whole `_real_extract` run instead of degrading to empty
subtitles. -/
theorem claim_C10_subtitle_errors_uncaught (vid : String) (env1 env2 : VideoEnv)
    (flds : List (String × JVal)) (info : List (String × JVal)) (fs : List Format)
    (h1 : env1.subFetch = Except.ok none)
    (h2 : env2.subFetch = Except.ok (some (JVal.obj flds)))
    (h2t : jlookup flds ("total") = none)
    (hv : searchVevo env1.webpage = none)
    (hi : env1.embedInfo = some (some info))
    (he : pyGet info ("error") = none)
    (hf : buildFormats info = Except.ok fs)
    (hfs : fs ≠ []) :
    (get_subtitles vid env1).1 = Except.error ExErr.jsonError ∧
    (get_subtitles vid env2).1 = Except.error (ExErr.keyError ("total")) ∧
    (real_extract vid env1).1 = Except.error ExErr.jsonError := by
  have hfe : fs.isEmpty = false := List.isEmpty_eq_false.mpr hfs
  refine ⟨?_, ?_, ?_⟩
  · simp [get_subtitles, h1]
  · simp [get_subtitles, h2, pyIndexVal, h2t, Except.bind]
  · simp [real_extract, hv, hi, he, hf, hfe, get_subtitles, h1]

theorem claim_C10_witness :
    jlookup [("list", JVal.arr [])] ("total") = none ∧
    ((get_subtitles ("v3") badJsonEnv).1 = Except.error ExErr.jsonError ∧
     (get_subtitles ("v3") noTotalEnv).1 = Except.error (ExErr.keyError ("total")) ∧
     (real_extract ("v3") badJsonEnv).1 = Except.error ExErr.jsonError) := by
  refine ⟨rfl, ?_⟩
  exact claim_C10_subtitle_errors_uncaught ("v3") badJsonEnv noTotalEnv
    [("list", JVal.arr [])] [("stream_h264_url", JVal.str ("u"))]
    [{ url := "u", ext := "mp4", format_id := "standard", width := none, height := none }]
    rfl rfl rfl (by decide) rfl rfl rfl (by decide)

/-! ## C4: subtitle failures the module tolerates -/

/-- C4: a transport failure of the subtitle listing fetch and a successful
response reporting `total = 0` both produce a warning and the empty
mapping, never an error; under either, the surrounding extraction still
returns a metadata record whose subtitle mapping is empty. -/
theorem claim_C4_subtitles_nonfatal (vid : String) (envT envZ envOK : VideoEnv)
    (msg msg2 : String) (jz : JVal) (infoOK : List (String × JVal)) (fs : List Format)
    (ttl : String) (up th du : JVal)
    (ht : envT.subFetch = Except.error msg)
    (hz : envZ.subFetch = Except.ok (some jz))
    (hzt : pyIndexVal jz ("total") = Except.ok (JVal.num 0))
    (hov : searchVevo envOK.webpage = none)
    (hoi : envOK.embedInfo = some (some infoOK))
    (hoe : pyGet infoOK ("error") = none)
    (hof : buildFormats infoOK = Except.ok fs)
    (hfs : fs ≠ [])
    (hos : envOK.subFetch = Except.error msg2)
    (hot : envOK.ogTitle = some ttl)
    (hou : jlookup infoOK ("owner.screenname") = some up)
    (hoth : jlookup infoOK ("thumbnail_url") = some th)
    (hod : jlookup infoOK ("duration") = some du) :
    get_subtitles vid envT =
      (Except.ok [],
       [subListDl vid, Eff.warning ("unable to download video subtitles: " ++ msg)]) ∧
    get_subtitles vid envZ =
      (Except.ok [], [subListDl vid, Eff.warning ("video doesn\x27t have subtitles")]) ∧
    (∃ md, (real_extract vid envOK).1 = Except.ok (ExtractResult.metadata md) ∧
      md.subtitles = []) := by
  have hfe : fs.isEmpty = false := List.isEmpty_eq_false.mpr hfs
  refine ⟨?_, ?_, ?_⟩
  · simp [get_subtitles, ht]
  · simp [get_subtitles, hz, hzt, pyGtZero, Except.bind]
  · simp [real_extract, hov, hoi, hoe, hof, hfe, get_subtitles, hos,
      resolveTitle, hot, pyIndexObj, hou, hoth, hod]

theorem claim_C4_witness :
    pyIndexVal (JVal.obj [("total", JVal.num 0)]) ("total") = Except.ok (JVal.num 0) ∧
    (get_subtitles ("v4") vevoEnv =
      (Except.ok [],
       [subListDl ("v4"), Eff.warning ("unable to download video subtitles: net")]) ∧
     get_subtitles ("v4") zeroSubsEnv =
      (Except.ok [], [subListDl ("v4"), Eff.warning ("video doesn\x27t have subtitles")]) ∧
     (∃ md, (real_extract ("v4") dateEnv).1 = Except.ok (ExtractResult.metadata md) ∧
       md.subtitles = [])) := by
  refine ⟨rfl, ?_⟩
  exact claim_C4_subtitles_nonfatal ("v4") vevoEnv zeroSubsEnv dateEnv
    ("net") ("net") (JVal.obj [("total", JVal.num 0)])
    [("stream_h264_url", JVal.str ("u")),
     ("owner.screenname", JVal.str ("IGN")),
     ("thumbnail_url", JVal.str ("t")),
     ("duration", JVal.num 74)]
    [{ url := "u", ext := "mp4", format_id := "standard", width := none, height := none }]
    ("T") (JVal.str ("IGN")) (JVal.str ("t")) (JVal.num 74)
    rfl rfl rfl (by decide) rfl rfl rfl (by decide) rfl rfl rfl rfl rfl

theorem mkFormat_format_id (u i : String) : (mkFormat u i).format_id = i := by
  unfold mkFormat
  split <;> rfl

theorem formatsLoop_ok {info : List (String × JVal)} :
    ∀ (L : List (String × String)) (acc res : List Format),
      formatsLoop info L acc = Except.ok res →
      res = acc ++ L.filterMap (formatPick info) ∧
      ∀ kf ∈ L, pyGet info kf.1 = none ∨ ∃ u, pyGet info kf.1 = some (JVal.str u) := by
  intro L
  induction L with
  | nil =>
    intro acc res h
    rw [formatsLoop] at h
    simp only [Except.ok.injEq] at h
    simp [h]
  | cons kf L ih =>
    intro acc res h
    rw [formatsLoop] at h
    split at h
    · next hg =>
      obtain ⟨hres, hall⟩ := ih _ _ h
      refine ⟨?_, ?_⟩
      · rw [hres]
        have hp : formatPick info kf = none := by simp [formatPick, hg]
        simp [List.filterMap_cons, hp]
      · intro kf2 hkf2
        rcases List.mem_cons.mp hkf2 with rfl | h2
        · exact Or.inl hg
        · exact hall kf2 h2
    · next u hg =>
      obtain ⟨hres, hall⟩ := ih _ _ h
      refine ⟨?_, ?_⟩
      · rw [hres]
        have hp : formatPick info kf = some (mkFormat u kf.2) := by simp [formatPick, hg]
        simp [List.filterMap_cons, hp, List.append_assoc]
      · intro kf2 hkf2
        rcases List.mem_cons.mp hkf2 with rfl | h2
        · exact Or.inr ⟨u, hg⟩
        · exact hall kf2 h2
    · simp at h

theorem filterMap_pick_map_id {info : List (String × JVal)} :
    ∀ L : List (String × String),
      (∀ kf ∈ L, pyGet info kf.1 = none ∨ ∃ u, pyGet info kf.1 = some (JVal.str u)) →
      (L.filterMap (formatPick info)).map (fun f => f.format_id) =
        (L.filter (fun kf => (pyGet info kf.1).isSome)).map (fun kf => kf.2) := by
  intro L
  induction L with
  | nil => intro _; rfl
  | cons kf L ih =>
    intro hall
    have htl := ih (fun kf2 h2 => hall kf2 (by simp [h2]))
    rcases hall kf (by simp) with hg | ⟨u, hg⟩
    · have hp : formatPick info kf = none := by simp [formatPick, hg]
      simp [List.filterMap_cons, List.filter_cons, hp, hg, htl]
    · have hp : formatPick info kf = some (mkFormat u kf.2) := by simp [formatPick, hg]
      simp [List.filterMap_cons, List.filter_cons, hp, hg, htl, mkFormat_format_id]

theorem formatsLoop_congr {info info2 : List (String × JVal)}
    (hl : ∀ k, jlookup info2 k = jlookup info k) :
    ∀ (L : List (String × String)) (acc : List Format),
      formatsLoop info2 L acc = formatsLoop info L acc := by
  intro L
  induction L with
  | nil => intro acc; rfl
  | cons kf L ih =>
    intro acc
    rw [formatsLoop, formatsLoop]
    have hpg : pyGet info2 kf.1 = pyGet info kf.1 := by simp [pyGet, hl]
    rw [hpg]
    cases hg : pyGet info kf.1 with
    | none => exact ih acc
    | some v =>
      cases v with
      | str u => exact ih (acc ++ [mkFormat u kf.2])
      | null => rfl
      | bool b => rfl
      | num n => rfl
      | arr items => rfl
      | obj fields => rfl

/-- C2: the formats of a successful run contain exactly one `Format` per
known quality-tier key whose URL field is present, listed in the fixed
`_FORMATS` tier order (ld, standard, hq, hd, hd1080-tier) whatever the key
order of the descriptor, and the order never depends on the inferred
resolutions; a successful `_real_extract` returns exactly this list. -/
theorem claim_C2_format_tier_order (info : List (String × JVal)) (formats : List Format)
    (h : buildFormats info = Except.ok formats) :
    formats.map (fun f => f.format_id) =
      (FORMATS.filter (fun kf => (pyGet info kf.1).isSome)).map (fun kf => kf.2) ∧
    (∀ kf ∈ FORMATS, ∀ u, pyGet info kf.1 = some (JVal.str u) → mkFormat u kf.2 ∈ formats) ∧
    (∀ info2, (∀ k, jlookup info2 k = jlookup info k) →
      buildFormats info2 = Except.ok formats) ∧
    (∀ vid env md, env.embedInfo = some (some info) →
      (real_extract vid env).1 = Except.ok (ExtractResult.metadata md) →
      md.formats = formats) := by
  obtain ⟨hres, hall⟩ := formatsLoop_ok FORMATS [] formats h
  rw [List.nil_append] at hres
  refine ⟨?_, ?_, ?_, ?_⟩
  · rw [hres]
    exact filterMap_pick_map_id FORMATS hall
  · intro kf hkf u hu
    rw [hres]
    exact List.mem_filterMap.mpr ⟨kf, hkf, by simp [formatPick, hu]⟩
  · intro info2 hl
    unfold buildFormats
    rw [formatsLoop_congr hl]
    exact h
  · intro vid env md hinfo hok
    obtain ⟨-, info3, formats3, hinfo3, -, hbf3, -, hf3, -, -, -, -⟩ := real_extract_ok_inv hok
    rw [hinfo] at hinfo3
    have hinfoeq : info = info3 := Option.some.inj (Option.some.inj hinfo3)
    rw [← hinfoeq] at hbf3
    have hfeq : formats3 = formats := Except.ok.inj (hbf3.symm.trans h)
    rw [hf3, hfeq]

theorem claim_C2_witness :
    buildFormats scrambledInfo = Except.ok scrambledFormats ∧
    (scrambledFormats.map (fun f => f.format_id) =
        (FORMATS.filter (fun kf => (pyGet scrambledInfo kf.1).isSome)).map (fun kf => kf.2) ∧
      (∀ kf ∈ FORMATS, ∀ u, pyGet scrambledInfo kf.1 = some (JVal.str u) →
        mkFormat u kf.2 ∈ scrambledFormats) ∧
      (∀ info2, (∀ k, jlookup info2 k = jlookup scrambledInfo k) →
        buildFormats info2 = Except.ok scrambledFormats) ∧
      (∀ vid env md, env.embedInfo = some (some scrambledInfo) →
        (real_extract vid env).1 = Except.ok (ExtractResult.metadata md) →
        md.formats = scrambledFormats)) := by
  have h : buildFormats scrambledInfo = Except.ok scrambledFormats := rfl
  exact ⟨h, claim_C2_format_tier_order scrambledInfo scrambledFormats h⟩

theorem keepFirsts_mem : ∀ (l : List String) (x : String), x ∈ keepFirsts l ↔ x ∈ l
  | [], x => by simp [keepFirsts]
  | y :: ys, x => by
    rw [keepFirsts]
    by_cases hxy : x = y
    · simp [hxy]
    · simp only [List.mem_cons, hxy, false_or]
      rw [keepFirsts_mem (ys.filter (fun z => z ≠ y)) x]
      simp [List.mem_filter, hxy]
termination_by l _ => l.length
decreasing_by
  simp only [List.length_cons]
  exact Nat.lt_succ_of_le (List.length_filter_le _ _)

theorem keepFirsts_nodup : ∀ l : List String, (keepFirsts l).Nodup
  | [] => by simp [keepFirsts]
  | x :: xs => by
    rw [keepFirsts]
    refine List.nodup_cons.mpr ⟨?_, keepFirsts_nodup (xs.filter (fun y => y ≠ x))⟩
    intro hmem
    have hx := (keepFirsts_mem _ x).mp hmem
    simp [List.mem_filter] at hx
termination_by l => l.length
decreasing_by
  simp only [List.length_cons]
  exact Nat.lt_succ_of_le (List.length_filter_le _ _)

theorem keepFirsts_sublist : ∀ l : List String, List.Sublist (keepFirsts l) l
  | [] => by simp [keepFirsts]
  | x :: xs => by
    rw [keepFirsts]
    exact List.Sublist.cons₂ x ((keepFirsts_sublist (xs.filter (fun y => y ≠ x))).trans
      (List.filter_sublist xs))
termination_by l => l.length
decreasing_by
  simp only [List.length_cons]
  exact Nat.lt_succ_of_le (List.length_filter_le _ _)

theorem keepFirsts_idx : ∀ (xs : List String) (x : String) (ys : List String), x ∉ xs →
    idxOfFirst x (keepFirsts (xs ++ x :: ys)) = (keepFirsts xs).length
  | [], x, ys, _ => by
    rw [List.nil_append]
    simp [keepFirsts, idxOfFirst]
  | a :: as, x, ys, hx => by
    rw [List.cons_append]
    simp only [keepFirsts]
    have hxa : x ≠ a := fun he => hx (by simp [he])
    have hfilter : (as ++ x :: ys).filter (fun y => y ≠ a) =
        as.filter (fun y => y ≠ a) ++ x :: ys.filter (fun y => y ≠ a) := by
      rw [List.filter_append, List.filter_cons]
      simp [hxa]
    rw [hfilter, idxOfFirst]
    have hax : ¬(a = x) := fun he => hxa he.symm
    rw [if_neg hax]
    have hx2 : x ∉ as.filter (fun y => y ≠ a) := by
      intro hmem
      simp only [List.mem_filter] at hmem
      exact hx (by simp [hmem.1])
    rw [keepFirsts_idx (as.filter (fun y => y ≠ a)) x (ys.filter (fun y => y ≠ a)) hx2]
    simp
termination_by xs _ _ _ => xs.length
decreasing_by
  simp only [List.length_cons]
  exact Nat.lt_succ_of_le (List.length_filter_le _ _)

theorem orderedSet_go :
    ∀ (l res : List String),
      List.foldl (fun r el => if el ∈ r then r else r ++ [el]) res l =
        res ++ keepFirsts (l.filter (fun y => decide (y ∉ res))) := by
  intro l
  induction l with
  | nil => intro res; simp [keepFirsts]
  | cons x xs ih =>
    intro res
    rw [List.foldl_cons, List.filter_cons]
    by_cases hx : x ∈ res
    · rw [if_pos hx]
      have hd : (decide (x ∉ res)) = false := by simpa using hx
      rw [hd]
      simp only [Bool.false_eq_true, if_false]
      exact ih res
    · rw [if_neg hx]
      have hd : (decide (x ∉ res)) = true := by simpa using hx
      rw [hd]
      simp only [if_true]
      rw [ih (res ++ [x])]
      rw [keepFirsts]
      rw [List.filter_filter]
      have hpred : ∀ a : String,
          (decide (a ∉ res ++ [x])) = ((decide (a ≠ x)) && (decide (a ∉ res))) := by
        intro a
        by_cases h1 : a = x <;> by_cases h2 : a ∈ res <;> simp [h1, h2]
      have hfeq : xs.filter (fun a => decide (a ∉ res ++ [x])) =
          xs.filter (fun a => (decide (a ≠ x)) && (decide (a ∉ res))) :=
        List.filter_congr (fun a _ => hpred a)
      rw [hfeq]
      simp [List.append_assoc]

theorem orderedSet_eq_keepFirsts (l : List String) : orderedSet l = keepFirsts l := by
  unfold orderedSet
  rw [orderedSet_go l []]
  rw [List.nil_append]
  have hfl : l.filter (fun y => decide (y ∉ ([] : List String))) = l :=
    List.filter_eq_self.mpr (fun a _ => by simp)
  rw [hfl]

theorem segIds_one (pages : Nat → String) (p : Nat) :
    segIds pages p 1 = findall_xid (pages p) := by
  simp [segIds, List.range_succ]

theorem segIds_succ (pages : Nat → String) (p n : Nat) :
    segIds pages p (n + 1) = findall_xid (pages p) ++ segIds pages (p + 1) n := by
  unfold segIds
  rw [List.range_succ_eq_map, List.map_cons, List.map_map, List.flatten_cons]
  rw [Nat.add_zero]
  congr 1
  have hfun : ((fun j => findall_xid (pages (p + j))) ∘ Nat.succ) =
      (fun j => findall_xid (pages (p + 1 + j))) := by
    funext j
    simp only [Function.comp]
    have harg : p + Nat.succ j = p + 1 + j := by omega
    rw [harg]
  rw [hfun]

theorem extract_entries_loop_stops (pages pages2 : Nat → String) :
    ∀ (i : Nat), ∀ (p : Nat) (acc : List String) (fuel : Nat),
      (∀ j, j ≤ i → pages2 (p + j) = pages (p + j)) →
      (∀ j, j < i → searchMorePages (pages (p + j)) = true) →
      searchMorePages (pages (p + i)) = false →
      i < fuel →
      extract_entries_loop pages2 fuel p acc = some (acc ++ segIds pages p (i + 1)) := by
  intro i
  induction i with
  | zero =>
    intro p acc fuel hagree hpre hstop hfuel
    cases fuel with
    | zero => omega
    | succ f =>
      rw [extract_entries_loop]
      have hp : pages2 p = pages p := by simpa using hagree 0 (Nat.le_refl 0)
      rw [Nat.add_zero] at hstop
      rw [hp, hstop]
      simp only [Bool.false_eq_true, if_false]
      rw [segIds_one]
  | succ i ih =>
    intro p acc fuel hagree hpre hstop hfuel
    cases fuel with
    | zero => omega
    | succ f =>
      rw [extract_entries_loop]
      have hp : pages2 p = pages p := by simpa using hagree 0 (Nat.zero_le _)
      have hm : searchMorePages (pages p) = true := by simpa using hpre 0 (Nat.succ_pos i)
      rw [hp, hm]
      simp only [if_true]
      have hagree2 : ∀ j, j ≤ i → pages2 (p + 1 + j) = pages (p + 1 + j) := by
        intro j hj
        have hh := hagree (j + 1) (by omega)
        have harg : p + (j + 1) = p + 1 + j := by omega
        rwa [harg] at hh
      have hpre2 : ∀ j, j < i → searchMorePages (pages (p + 1 + j)) = true := by
        intro j hj
        have hh := hpre (j + 1) (by omega)
        have harg : p + (j + 1) = p + 1 + j := by omega
        rwa [harg] at hh
      have hstop2 : searchMorePages (pages (p + 1 + i)) = false := by
        have harg : p + (i + 1) = p + 1 + i := by omega
        rwa [harg] at hstop
      rw [ih (p + 1) (acc ++ findall_xid (pages p)) f hagree2 hpre2 hstop2 (by omega)]
      rw [segIds_succ pages p (i + 1)]
      simp [List.append_assoc]

theorem extract_entries_loop_diverges (pages : Nat → String)
    (h : ∀ n, 1 ≤ n → searchMorePages (pages n) = true) :
    ∀ (fuel p : Nat) (acc : List String), 1 ≤ p →
      extract_entries_loop pages fuel p acc = none := by
  intro fuel
  induction fuel with
  | zero => intro p acc hp; rfl
  | succ f ih =>
    intro p acc hp
    rw [extract_entries_loop, h p hp]
    simp only [if_true]
    exact ih (p + 1) _ (by omega)

/-- C6: starting at page 1 and incrementing by 1, the loop stops exactly at
the first page whose markup lacks the more-pages indicator — that page's
ids are still collected — and touches no page beyond it (any oracle
agreeing on pages `1..k` gives the same output); if every page carries the
indicator, the loop never finishes (no fuel suffices — the source has no
page-count bound). -/
theorem claim_C6_pagination_termination (pages pages2 pagesInf : Nat → String)
    (k fuel : Nat) (hk : 1 ≤ k)
    (hpre : ∀ j, 1 ≤ j → j < k → searchMorePages (pages j) = true)
    (hstop : searchMorePages (pages k) = false)
    (hagree : ∀ j, 1 ≤ j → j ≤ k → pages2 j = pages j)
    (hfuel : k ≤ fuel)
    (hinf : ∀ n, 1 ≤ n → searchMorePages (pagesInf n) = true) :
    extract_entries pages2 fuel =
      some ((orderedSet (segIds pages 1 k)).map mkVideoEntry) ∧
    ∀ fuel2, extract_entries pagesInf fuel2 = none := by
  constructor
  · have hagree2 : ∀ j, j ≤ k - 1 → pages2 (1 + j) = pages (1 + j) := by
      intro j hj
      exact hagree (1 + j) (by omega) (by omega)
    have hpre2 : ∀ j, j < k - 1 → searchMorePages (pages (1 + j)) = true := by
      intro j hj
      exact hpre (1 + j) (by omega) (by omega)
    have hstop2 : searchMorePages (pages (1 + (k - 1))) = false := by
      have harg : 1 + (k - 1) = k := by omega
      rwa [harg]
    have hloop := extract_entries_loop_stops pages pages2 (k - 1) 1 [] fuel
      hagree2 hpre2 hstop2 (by omega)
    have hk1 : k - 1 + 1 = k := by omega
    rw [hk1] at hloop
    unfold extract_entries
    rw [hloop]
    simp
  · intro fuel2
    unfold extract_entries
    rw [extract_entries_loop_diverges pagesInf hinf fuel2 1 [] (by omega)]
    rfl

/-- C5: over the pages the loop visits (1 up to the first page without the
indicator), the returned entries list each id exactly once, in first-seen
order over the concatenation of the per-page id lists: the result is
`keepFirsts` of that concatenation — duplicate-free, order-preserving
(a sublist of the concatenation), containing an id iff some page listed
it, and placing each id at the index counting the distinct ids first seen
before it. -/
theorem claim_C5_dedup (pages : Nat → String) (k fuel : Nat) (hk : 1 ≤ k)
    (hpre : ∀ j, 1 ≤ j → j < k → searchMorePages (pages j) = true)
    (hstop : searchMorePages (pages k) = false)
    (hfuel : k ≤ fuel) :
    extract_entries pages fuel =
      some ((keepFirsts (segIds pages 1 k)).map mkVideoEntry) ∧
    (keepFirsts (segIds pages 1 k)).Nodup ∧
    (∀ x, x ∈ keepFirsts (segIds pages 1 k) ↔ x ∈ segIds pages 1 k) ∧
    List.Sublist (keepFirsts (segIds pages 1 k)) (segIds pages 1 k) ∧
    (∀ x xs ys, segIds pages 1 k = xs ++ x :: ys → x ∉ xs →
      idxOfFirst x (keepFirsts (segIds pages 1 k)) = (keepFirsts xs).length) := by
  refine ⟨?_, keepFirsts_nodup _, fun x => keepFirsts_mem _ x, keepFirsts_sublist _, ?_⟩
  · have hloop := extract_entries_loop_stops pages pages (k - 1) 1 [] fuel
      (fun j _ => rfl)
      (fun j hj => hpre (1 + j) (by omega) (by omega))
      (by
        have harg : 1 + (k - 1) = k := by omega
        rwa [harg])
      (by omega)
    have hk1 : k - 1 + 1 = k := by omega
    rw [hk1] at hloop
    unfold extract_entries
    rw [hloop]
    simp [orderedSet_eq_keepFirsts]
  · intro x xs ys heq hx
    rw [heq]
    exact keepFirsts_idx xs x ys hx

theorem claim_C6_witness :
    searchMorePages pageWithMore = true ∧
    searchMorePages pageLast = false ∧
    extract_entries wPages2 2 =
      some ((orderedSet (segIds wPages 1 2)).map mkVideoEntry) ∧
    ∀ fuel2, extract_entries wPagesInf fuel2 = none := by
  have h := claim_C6_pagination_termination wPages wPages2 wPagesInf 2 2
    (by decide)
    (by
      intro j h1 h2
      have hj : j = 1 := by omega
      subst hj
      decide)
    (by decide)
    (by
      intro j h1 h2
      simp [wPages2, h2])
    (by decide)
    (by
      intro n hn
      show searchMorePages pageWithMore = true
      decide)
  exact ⟨by decide, by decide, h.1, h.2⟩

theorem claim_C5_witness :
    segIds wPages 1 2 = ["a", "b", "b", "c"] ∧
    extract_entries wPages 3 =
      some [mkVideoEntry ("a"), mkVideoEntry ("b"), mkVideoEntry ("c")] ∧
    (extract_entries wPages 3 =
        some ((keepFirsts (segIds wPages 1 2)).map mkVideoEntry) ∧
      (keepFirsts (segIds wPages 1 2)).Nodup ∧
      (∀ x, x ∈ keepFirsts (segIds wPages 1 2) ↔ x ∈ segIds wPages 1 2) ∧
      List.Sublist (keepFirsts (segIds wPages 1 2)) (segIds wPages 1 2) ∧
      (∀ x xs ys, segIds wPages 1 2 = xs ++ x :: ys → x ∉ xs →
        idxOfFirst x (keepFirsts (segIds wPages 1 2)) = (keepFirsts xs).length)) := by
  have h := claim_C5_dedup wPages 2 3
    (by decide)
    (by
      intro j h1 h2
      have hj : j = 1 := by omega
      subst hj
      decide)
    (by decide)
    (by decide)
  have hseg : segIds wPages 1 2 = ["a", "b", "b", "c"] := by decide
  have hf1 : ["b", "b", "c"].filter (fun y => y ≠ "a") = ["b", "b", "c"] := by decide
  have hf2 : ["b", "c"].filter (fun y => y ≠ "b") = ["c"] := by decide
  have hf3 : ([] : List String).filter (fun y => y ≠ "c") = [] := by decide
  have hkf : keepFirsts ["a", "b", "b", "c"] = ["a", "b", "c"] := by
    rw [keepFirsts, hf1, keepFirsts, hf2, keepFirsts, hf3, keepFirsts]
  refine ⟨hseg, ?_, h⟩
  rw [h.1, hseg, hkf]
  rfl

theorem claim_C7_witness :
    h264TokenIn ("http://e/H264-1280x720/v.mp4") ∧
    (mkFormat ("http://e/H264-1280x720/v.mp4") ("hd")).width = some 1280 ∧
    (mkFormat ("http://e/H264-1280x720/v.mp4") ("hd")).height = some 720 ∧
    ((mkFormat ("http://e/video.mp4") ("hd")).width = none ∧
     (mkFormat ("http://e/video.mp4") ("hd")).height = none) := by
  have htok : h264TokenIn ("http://e/H264-1280x720/v.mp4") :=
    ⟨("http://e/").data, ("1280").data, ("720").data, ("/v.mp4").data,
      by decide, by decide, by decide, by decide, by decide⟩
  refine ⟨htok, by decide, by decide, ?_⟩
  refine (claim_C7_resolution_inference ("http://e/video.mp4") ("hd")).1 ?_
  intro hex
  have hsome := searchH264_isSome_of_token hex
  have hn : searchH264 ("http://e/video.mp4") = none := by decide
  rw [hn] at hsome
  simp at hsome
